import Mathlib

/-!
Verification development for the pnode dashboard's metrics pipeline
(`src/lib/nodeData` re-exported through `src/hooks`, `src/lib/import.ts`,
`src/lib/export.ts`, `src/lib/mapFilters.ts`).

Modelling conventions, used throughout:

* JavaScript numbers are modelled by `JSNum`: either `NaN`, `±Infinity`, or a
  finite rational.  Finite arithmetic is idealised as exact rational
  arithmetic (IEEE-754 rounding of individual operations is not modelled);
  the special-value propagation of `+ - * /`, `Math.min`, `Math.round` and
  the comparison operators follows the ECMAScript semantics, which is what
  the claims under study depend on (division by zero, `NaN` poisoning,
  capping at infinities).
* String-to-number coercion (`Number(s)`) and number-to-string rendering
  (`String(n)`) depend on IEEE-754 double parsing/printing; functions of the
  source that use them take the coercion as an explicit function argument
  (`toNum : String → JSNum`, `nts : JSNum → JSNum`-to-`String`), and the
  universally quantified theorems hold for every such coercion.  Concrete
  instantiations use `jsParseNum` / `jsNumToString`, which agree with
  JavaScript on the plain decimal integers appearing in concrete inputs.
* Records (`Record<string, string>` built by repeated assignment) are
  modelled as association lists in assignment order; `recGet` returns the
  last binding, matching the last-write-wins semantics of object assignment.
-/

namespace PNodeSpec

/-- Model of a JavaScript number: `NaN`, `+Infinity`, `-Infinity`, or a
finite value (idealised as an exact rational). -/
inductive JSNum where
  | nan : JSNum
  | inf : JSNum
  | ninf : JSNum
  | fin : ℚ → JSNum
deriving DecidableEq

namespace JSNum

/-- JavaScript unary negation on numbers. -/
def neg : JSNum → JSNum
  | nan => nan
  | inf => ninf
  | ninf => inf
  | fin q => fin (-q)

/-- JavaScript `+` on numbers (`NaN` poisoning, `Infinity + -Infinity = NaN`). -/
def add : JSNum → JSNum → JSNum
  | nan, _ => nan
  | _, nan => nan
  | inf, ninf => nan
  | ninf, inf => nan
  | inf, _ => inf
  | _, inf => inf
  | ninf, _ => ninf
  | _, ninf => ninf
  | fin a, fin b => fin (a + b)

/-- JavaScript `-` on numbers. -/
def sub (a b : JSNum) : JSNum := add a (neg b)

/-- JavaScript `*` on numbers (`Infinity * 0 = NaN`). -/
def mul : JSNum → JSNum → JSNum
  | nan, _ => nan
  | _, nan => nan
  | inf, inf => inf
  | inf, ninf => ninf
  | ninf, inf => ninf
  | ninf, ninf => inf
  | inf, fin b => if b = 0 then nan else if 0 < b then inf else ninf
  | fin a, inf => if a = 0 then nan else if 0 < a then inf else ninf
  | ninf, fin b => if b = 0 then nan else if 0 < b then ninf else inf
  | fin a, ninf => if a = 0 then nan else if 0 < a then ninf else inf
  | fin a, fin b => fin (a * b)

/-- JavaScript `/` on numbers: `x/0` is `±Infinity` for finite nonzero `x`,
`0/0` is `NaN`, finite over infinite is `0`. -/
def div : JSNum → JSNum → JSNum
  | nan, _ => nan
  | _, nan => nan
  | inf, inf => nan
  | inf, ninf => nan
  | ninf, inf => nan
  | ninf, ninf => nan
  | inf, fin b => if 0 ≤ b then inf else ninf
  | ninf, fin b => if 0 ≤ b then ninf else inf
  | fin _, inf => fin 0
  | fin _, ninf => fin 0
  | fin a, fin b =>
      if b = 0 then (if a = 0 then nan else if 0 < a then inf else ninf)
      else fin (a / b)

/-- JavaScript `<` on numbers (any comparison involving `NaN` is false). -/
def ltb : JSNum → JSNum → Bool
  | nan, _ => false
  | _, nan => false
  | inf, _ => false
  | ninf, ninf => false
  | ninf, _ => true
  | fin _, inf => true
  | fin _, ninf => false
  | fin a, fin b => decide (a < b)

/-- JavaScript `<=` on numbers (any comparison involving `NaN` is false). -/
def leb : JSNum → JSNum → Bool
  | nan, _ => false
  | _, nan => false
  | inf, inf => true
  | inf, _ => false
  | ninf, _ => true
  | fin _, inf => true
  | fin _, ninf => false
  | fin a, fin b => decide (a ≤ b)

/-- JavaScript `>` on numbers. -/
def gtb (a b : JSNum) : Bool := ltb b a

/-- JavaScript `>=` on numbers. -/
def geb (a b : JSNum) : Bool := leb b a

/-- Model of `Math.min` on two numbers: `NaN` if either argument is `NaN`. -/
def jmin (a b : JSNum) : JSNum :=
  if a = nan ∨ b = nan then nan else if ltb a b then a else b

/-- Model of `Math.round`: round half toward positive infinity on finite values,
identity on `NaN` and the infinities. -/
def round : JSNum → JSNum
  | nan => nan
  | inf => inf
  | ninf => ninf
  | fin q => fin ((⌊q + 1/2⌋ : ℤ) : ℚ)

/-- JavaScript truthiness of a number: `0`, `-0` and `NaN` are falsy. -/
def truthy : JSNum → Bool
  | nan => false
  | inf => true
  | ninf => true
  | fin q => decide (q ≠ 0)

/-- Whether the value is finite (`Number.isFinite`). -/
def isFinite : JSNum → Bool
  | fin _ => true
  | _ => false

/-- The coercion `Number.isFinite(n) ? n : 0` used by `parseVersion`. -/
def finPart : JSNum → ℚ
  | fin q => q
  | _ => 0

/-- Model of `Number.isInteger`. -/
def isInteger : JSNum → Bool
  | fin q => decide (q.den = 1)
  | _ => false

end JSNum

/-- The `status` field of a node: `'online' | 'offline'`. -/
inductive Status where
  | online : Status
  | offline : Status
deriving DecidableEq

/-- The `Node` interface from `nodeData`.  Numeric fields are `JSNum`; the
optional fields `healthScore`, `rank`, `percentile`, `percentileRank` are
`Option`s (`none` = the property is absent / `undefined`). -/
structure Node where
  pubkey : String
  status : Status
  version : String
  storageUsed : JSNum
  storageTotal : JSNum
  uptime : JSNum
  ip : String
  lastSeen : String
  address : String
  isPublic : Bool
  rpcPort : JSNum
  storageCommitted : JSNum
  storageUsagePercent : JSNum
  lastSeenTimestamp : JSNum
  healthScore : Option JSNum
  rank : Option JSNum
  percentile : Option String
  percentileRank : Option JSNum
deriving DecidableEq

/-- JavaScript `String.prototype.split` with a single-character separator
(on the character list of the string).  `''.split(sep)` is `['']`. -/
def splitOnChar (sep : Char) (l : List Char) : List (List Char) :=
  l.foldr
    (fun c acc =>
      if c = sep then [] :: acc
      else
        match acc with
        | [] => [[c]]
        | f :: fs => (c :: f) :: fs)
    [[]]

/-- The `version.replace(/^v/i, '')` step of `parseVersion`: drop one
leading `v` or `V`. -/
def stripLeadingV : List Char → List Char
  | [] => []
  | c :: rest => if c = 'v' ∨ c = 'V' then rest else c :: rest

/-- Function `parseVersion` from `nodeData`: strip a leading `v`, split on `.`, map
each part through `Number` (the `toNum` parameter), and replace non-finite
components by `0`. -/
def parseVersion (toNum : String → JSNum) (version : String) : List ℚ :=
  (splitOnChar '.' (stripLeadingV version.data)).map
    (fun part => JSNum.finPart (toNum (String.mk part)))

/-- The index loop of `compareVersions`: compare component lists left to
right, a missing component reading as `0` (`av[i] ?? 0`). -/
def cmpComponents : List ℚ → List ℚ → Int
  | [], [] => 0
  | a :: xs, [] => if a ≠ 0 then (if 0 < a then 1 else -1) else cmpComponents xs []
  | [], b :: ys => if b ≠ 0 then (if 0 < b then -1 else 1) else cmpComponents [] ys
  | a :: xs, b :: ys => if a ≠ b then (if b < a then 1 else -1) else cmpComponents xs ys

/-- Function `compareVersions` from `nodeData`. -/
def compareVersions (toNum : String → JSNum) (a b : String) : Int :=
  cmpComponents (parseVersion toNum a) (parseVersion toNum b)

/-- Function `getLatestVersion` from `nodeData`: `"0.0.0"` on the empty list, else a
left `reduce` keeping the later version. -/
def getLatestVersion (toNum : String → JSNum) (inputNodes : List Node) : String :=
  match inputNodes.map Node.version with
  | [] => "0.0.0"
  | v :: vs => vs.foldl (fun latest w => if 0 < compareVersions toNum w latest then w else latest) v

/-- Function `calculateHealthScore` from `nodeData`, translated verbatim: uptime term
`min((uptime/30)*40, 40)`, storage term `(storageCommitted/storageTotal)*25`
(no guard on `storageTotal`), version term `20/10`, public term `15/5`,
result `Math.min(Math.round(score), 100)`. -/
def calculateHealthScore (node : Node) (latestVersion : String) : JSNum :=
  let score1 := JSNum.add (JSNum.fin 0)
    (JSNum.jmin (JSNum.mul (JSNum.div node.uptime (JSNum.fin 30)) (JSNum.fin 40)) (JSNum.fin 40))
  let efficiency := JSNum.div node.storageCommitted node.storageTotal
  let score2 := JSNum.add score1 (JSNum.mul efficiency (JSNum.fin 25))
  let score3 := JSNum.add score2 (if node.version = latestVersion then JSNum.fin 20 else JSNum.fin 10)
  let score4 := JSNum.add score3 (if node.isPublic then JSNum.fin 15 else JSNum.fin 5)
  JSNum.jmin (JSNum.round score4) (JSNum.fin 100)

/-- Function `computeNodes` from `nodeData`: recompute every node's `healthScore`
against the latest version of the whole input list. -/
def computeNodes (toNum : String → JSNum) (inputNodes : List Node) : List Node :=
  let latestVersion := getLatestVersion toNum inputNodes
  inputNodes.map (fun node => { node with healthScore := some (calculateHealthScore node latestVersion) })

/-- Whitespace characters recognised by `String.prototype.trim` (ASCII part). -/
def jsIsWS (c : Char) : Bool :=
  c = ' ' ∨ c = '\t' ∨ c = '\n' ∨ c = '\r' ∨ c = '\x0b' ∨ c = '\x0c'

/-- Model of `String.prototype.trim` on a character list. -/
def jsTrim (l : List Char) : List Char :=
  ((l.dropWhile jsIsWS).reverse.dropWhile jsIsWS).reverse

/-- Parse a nonempty all-digit character list as a natural number. -/
def parseDigits (l : List Char) : Option ℕ :=
  if l ≠ [] ∧ l.all Char.isDigit then
    some (l.foldl (fun acc c => acc * 10 + (c.toNat - 48)) 0)
  else none

/-- A concrete instance of the `Number(string)` coercion: handles whitespace
trimming, the empty string (0), an optional sign, `Infinity`, and plain
decimal literals (`digits`, `digits.digits`, `.digits`, `digits.`) exactly;
other shapes (exponents, hex) coerce to `NaN` here.  It agrees with
JavaScript on all strings appearing in the concrete theorems below. -/
def jsParseNum (s : String) : JSNum :=
  let t := jsTrim s.data
  if t = [] then JSNum.fin 0
  else
    let sgn : ℚ := match t with
      | '-' :: _ => -1
      | _ => 1
    let u : List Char := match t with
      | '-' :: rest => rest
      | '+' :: rest => rest
      | _ => t
    if u = "Infinity".data then (if sgn = 1 then JSNum.inf else JSNum.ninf)
    else
      match splitOnChar '.' u with
      | [ip] =>
          match parseDigits ip with
          | some n => JSNum.fin (sgn * n)
          | none => JSNum.nan
      | [ip, fp] =>
          if ip = [] ∧ fp = [] then JSNum.nan
          else
            match (if ip = [] then some 0 else parseDigits ip),
                  (if fp = [] then some 0 else parseDigits fp) with
            | some n, some f => JSNum.fin (sgn * (n + (f : ℚ) / ((10 : ℚ) ^ fp.length)))
            | _, _ => JSNum.nan
      | _ => JSNum.nan

/-- A concrete instance of the `String(number)` rendering: exact for `NaN`,
the infinities, and integers (where it matches JavaScript); non-integral
rationals fall back to `"0"` and are not used by any concrete theorem. -/
def jsNumToString : JSNum → String
  | JSNum.nan => "NaN"
  | JSNum.inf => "Infinity"
  | JSNum.ninf => "-Infinity"
  | JSNum.fin q => if q.den = 1 then toString q.num else "0"

/-- The record returned by `getNetworkStats`. -/
structure NetworkStats where
  totalNodes : Nat
  onlineNodes : Nat
  offlineNodes : Nat
  totalStorage : JSNum
  usedStorage : JSNum
  storageUtilization : JSNum
  avgUptime : JSNum
  avgHealthScore : JSNum
  publicNodes : Nat
  privateNodes : Nat
  latestVersion : String
deriving DecidableEq

/-- Function `getNetworkStats` from `nodeData`: all ratios over the online
subset, averages divided by `onlineNodes.length || 1`, utilisation guarded
by `totalStorage > 0`. -/
def getNetworkStats (toNum : String → JSNum) (nodes : List Node) : NetworkStats :=
  let onlineL := nodes.filter (fun n => n.status = Status.online)
  let totalStorage := onlineL.foldl (fun s n => JSNum.add s n.storageTotal) (JSNum.fin 0)
  let usedStorage := onlineL.foldl (fun s n => JSNum.add s n.storageUsed) (JSNum.fin 0)
  let denom : Nat := if onlineL.length = 0 then 1 else onlineL.length
  let avgUptime :=
    JSNum.div (onlineL.foldl (fun s n => JSNum.add s n.uptime) (JSNum.fin 0)) (JSNum.fin denom)
  let publicCount := (onlineL.filter (fun n => n.isPublic)).length
  let avgHealthScore :=
    JSNum.div (onlineL.foldl (fun s n => JSNum.add s (n.healthScore.getD (JSNum.fin 0))) (JSNum.fin 0))
      (JSNum.fin denom)
  { totalNodes := nodes.length
    onlineNodes := onlineL.length
    offlineNodes := nodes.length - onlineL.length
    totalStorage := totalStorage
    usedStorage := usedStorage
    storageUtilization :=
      if JSNum.gtb totalStorage (JSNum.fin 0) then
        JSNum.mul (JSNum.div usedStorage totalStorage) (JSNum.fin 100)
      else JSNum.fin 0
    avgUptime := avgUptime
    avgHealthScore := avgHealthScore
    publicNodes := publicCount
    privateNodes := onlineL.length - publicCount
    latestVersion := getLatestVersion toNum nodes }

/-- One step of the `Map`-based grouping in `getNodesByVersion`: increment
the count of `v`, preserving insertion order, appending a fresh entry if
absent (the semantics of `Map.get` / `Map.set`). -/
def bumpVersion (entries : List (String × Nat)) (v : String) : List (String × Nat) :=
  match entries with
  | [] => [(v, 1)]
  | (w, c) :: rest => if w = v then (w, c + 1) :: rest else (w, c) :: bumpVersion rest v

/-- An entry of the version distribution returned by `getNodesByVersion`. -/
structure VersionEntry where
  version : String
  count : Nat
  percentage : JSNum
deriving DecidableEq

/-- Function `getNodesByVersion` from `nodeData`: group nodes by exact
version string via an insertion-ordered map, percentage over all nodes. -/
def getNodesByVersion (nodes : List Node) : List VersionEntry :=
  let versionMap := nodes.foldl (fun m n => bumpVersion m n.version) []
  versionMap.map (fun p =>
    { version := p.1, count := p.2
      percentage := JSNum.mul (JSNum.div (JSNum.fin p.2) (JSNum.fin nodes.length)) (JSNum.fin 100) })

/-- First-match lookup in an insertion-ordered count map (0 when absent). -/
def lookupCount : List (String × Nat) → String → ℕ
  | [], _ => 0
  | (w, c) :: rest, v => if w = v then c else lookupCount rest v

/-- Modelled from the spec: pad a component list with zeros up to length `n`. -/
def padZeros (l : List ℚ) (n : Nat) : List ℚ :=
  l ++ List.replicate (n - l.length) 0

/-- Modelled from the spec: compare two equal-length component lists
left-to-right, `1` if the first is greater, `-1` if smaller, `0` if equal. -/
def lexCmp : List ℚ → List ℚ → Int
  | a :: xs, b :: ys => if b < a then 1 else if a < b then -1 else lexCmp xs ys
  | _, _ => 0

/-- Modelled from the spec's words for `compareVersions`: pad the shorter
parsed sequence with zeros to the longer length, then compare
component-wise left to right. -/
def cmpPaddedSpec (xs ys : List ℚ) : Int :=
  let m := max xs.length ys.length
  lexCmp (padZeros xs m) (padZeros ys m)

/-- A concrete node used to evaluate `calculateHealthScore` at the spec's
`storageTotal = 0` example: uptime 30 days, `storageCommitted` 100,
`storageTotal` 0, on the latest version, public. -/
def exampleNodeC1 : Node :=
  { pubkey := "example-node", status := Status.online, version := "1.0.0"
    storageUsed := JSNum.fin 0, storageTotal := JSNum.fin 0, uptime := JSNum.fin 30
    ip := "", lastSeen := "", address := "", isPublic := true
    rpcPort := JSNum.fin 8899, storageCommitted := JSNum.fin 100
    storageUsagePercent := JSNum.fin 0, lastSeenTimestamp := JSNum.fin 0
    healthScore := none, rank := none, percentile := none, percentileRank := none }

/-- The same node with `storageCommitted` also 0, producing a `0/0`. -/
def exampleNodeC1zero : Node :=
  { exampleNodeC1 with storageCommitted := JSNum.fin 0 }

/-- A concrete offline node (used to instantiate the all-offline case of the
network statistics). -/
def offlineNodeA : Node :=
  { exampleNodeC1 with
      status := Status.offline
      uptime := JSNum.fin 12
      storageTotal := JSNum.fin 50
      storageUsed := JSNum.fin 10
      healthScore := some (JSNum.fin 80) }


/-- Four concrete nodes, three on version `"1.0.0"` and one on `"2.0.0"`. -/
def exampleNodes4 : List Node :=
  [ { exampleNodeC1 with pubkey := "n1", version := "1.0.0" },
    { exampleNodeC1 with pubkey := "n2", version := "1.0.0" },
    { exampleNodeC1 with pubkey := "n3", version := "1.0.0" },
    { exampleNodeC1 with pubkey := "n4", version := "2.0.0" } ]


/-- The sort key of `rankNodes`: `node.healthScore || 0` (absent, `0` and
`NaN` scores all read as `0`, since `||` tests truthiness). -/
def scoreKey (n : Node) : JSNum :=
  match n.healthScore with
  | none => JSNum.fin 0
  | some v => if JSNum.truthy v then v else JSNum.fin 0

/-- The comparator test of `rankNodes`'s sort: the comparator is
`(b.healthScore || 0) - (a.healthScore || 0)`, and the engine places `x`
before `y` exactly when the comparator applied to `(y, x)` is negative
(a `NaN` comparator value counts as zero per ECMAScript `SortCompare`). -/
def keyLtB (x y : Node) : Bool :=
  JSNum.ltb (JSNum.sub (scoreKey x) (scoreKey y)) (JSNum.fin 0)

/-- Stable insertion of `x` (an earlier-input element) into an
already-sorted list of later-input elements: `x` goes after exactly those
whose key is strictly greater.  A stable sort with a consistent comparator
produces a unique output, so this insertion sort is the behaviour of
`[...nodes].sort((a, b) => (b.healthScore || 0) - (a.healthScore || 0))`. -/
def insNode (x : Node) : List Node → List Node
  | [] => [x]
  | y :: ys => if keyLtB x y then y :: insNode x ys else x :: y :: ys

/-- The stable descending sort of `rankNodes`. -/
def sortByScore : List Node → List Node
  | [] => []
  | x :: xs => insNode x (sortByScore xs)

/-- The per-index enrichment of `rankNodes`: rank `index+1`, percentile
rank `(total-index)/total*100`, and the four-way percentile bucket. -/
def decorate (total i : Nat) (n : Node) : Node :=
  let pr : ℚ := ((total : ℚ) - (i : ℚ)) / (total : ℚ) * 100
  let grp : String :=
    if 90 ≤ pr then "Top 10%"
    else if 75 ≤ pr then "Top 25%"
    else if 50 ≤ pr then "Top 50%"
    else "Bottom 50%"
  { n with
      rank := some (JSNum.fin ((i : ℚ) + 1))
      percentile := some grp
      percentileRank := some (JSNum.fin pr) }

/-- The indexed `map` of `rankNodes` over the sorted list. -/
def decorateFrom (total : Nat) : Nat → List Node → List Node
  | _, [] => []
  | i, n :: ns => decorate total i n :: decorateFrom total (i + 1) ns

/-- Function `rankNodes` from `nodeData`: sort a copy descending by
`healthScore || 0` (stably), then assign rank/percentile by index, with
`total = sorted.length || 1`. -/
def rankNodes (nodes : List Node) : List Node :=
  let sorted := sortByScore nodes
  let total : Nat := if sorted.length = 0 then 1 else sorted.length
  decorateFrom total 0 sorted

/-- Erase the three fields that `rankNodes` overwrites, to compare its
output with its input on everything else. -/
def clearRanks (n : Node) : Node :=
  { n with rank := none, percentile := none, percentileRank := none }


/-- The rank value stored for zero-based position `k - 1`: the number `k`. -/
def rankVal (k : ℕ) : Option JSNum := some (JSNum.fin (k : ℚ))


/-- The `MapFilters` interface from `mapFilters.ts`: a list of selected
statuses and an inclusive health range. -/
structure MapFilters where
  statuses : List Status
  healthRange : JSNum × JSNum
deriving DecidableEq

/-- Function `filterNodesByStatus` from `mapFilters.ts`: empty selection
returns the input unchanged, else keep nodes whose status is selected. -/
def filterNodesByStatus (nodes : List Node) (statuses : List Status) : List Node :=
  if statuses.length = 0 then nodes
  else nodes.filter (fun n => decide (n.status ∈ statuses))

/-- Function `filterNodesByHealthRange` from `mapFilters.ts`: keep nodes
whose `healthScore ?? 0` lies inclusively between the bounds. -/
def filterNodesByHealthRange (nodes : List Node) (mn mx : JSNum) : List Node :=
  nodes.filter (fun n =>
    JSNum.geb (n.healthScore.getD (JSNum.fin 0)) mn
      && JSNum.leb (n.healthScore.getD (JSNum.fin 0)) mx)

/-- Function `applyMapFilters` from `mapFilters.ts`: the status filter is
applied only when `0 < statuses.length < 2`, the health filter only when
`min > 0 || max < 100`. -/
def applyMapFilters (nodes : List Node) (filters : MapFilters) : List Node :=
  let f1 :=
    if 0 < filters.statuses.length ∧ filters.statuses.length < 2 then
      filterNodesByStatus nodes filters.statuses
    else nodes
  if JSNum.gtb filters.healthRange.1 (JSNum.fin 0)
      || JSNum.ltb filters.healthRange.2 (JSNum.fin 100) then
    filterNodesByHealthRange f1 filters.healthRange.1 filters.healthRange.2
  else f1

/-- Modelled from the claim's words: apply both predicate filters in
sequence — status membership (no-op for the empty selection), then the
inclusive health range on `healthScore` with a missing score read as 0. -/
def applyMapFiltersSpec (nodes : List Node) (filters : MapFilters) : List Node :=
  (nodes.filter (fun n =>
      decide (filters.statuses = []) || decide (n.status ∈ filters.statuses))).filter
    (fun n =>
      JSNum.geb (n.healthScore.getD (JSNum.fin 0)) filters.healthRange.1
        && JSNum.leb (n.healthScore.getD (JSNum.fin 0)) filters.healthRange.2)

/-- A filter state whose status list holds `online` twice: its length is 2,
so the code skips the status filter although the selection does not contain
both statuses. -/
def dupOnlineFilters : MapFilters :=
  { statuses := [Status.online, Status.online]
    healthRange := (JSNum.fin 0, JSNum.fin 100) }

/-- A single-status filter state with a strict health range. -/
def onlineMidFilters : MapFilters :=
  { statuses := [Status.online]
    healthRange := (JSNum.fin 10, JSNum.fin 90) }

/-- An online node with health score 50. -/
def onlineNode50 : Node :=
  { exampleNodeC1 with healthScore := some (JSNum.fin 50) }


/-- Prepend a character to the first chunk of a split result. -/
def consHead (c : Char) : List (List Char) → List (List Char)
  | [] => [[c]]
  | f :: fs => (c :: f) :: fs

/-- JavaScript `content.split(/\r?\n/)`: a line break is `\n` optionally
preceded by `\r`; a lone `\r` is ordinary text. -/
def splitLinesJS : List Char → List (List Char)
  | [] => [[]]
  | c :: rest =>
      if c = '\r' then
        match rest with
        | c2 :: rest2 =>
            if c2 = '\n' then [] :: splitLinesJS rest2
            else consHead '\r' (splitLinesJS (c2 :: rest2))
        | [] => consHead '\r' (splitLinesJS [])
      else if c = '\n' then [] :: splitLinesJS rest
      else consHead c (splitLinesJS rest)

/-- The character-scanning loop of `parseCSVLine` (identical in
`import.ts` and `export.ts`): `cur` is the current field, the `Bool` is
the in-quotes flag; a doubled quote inside quotes emits one quote, a
single quote toggles the flag, a comma outside quotes ends the field. -/
def csvLineGo : List Char → Bool → List Char → List (List Char)
  | [], _, cur => [cur]
  | c :: rest, true, cur =>
      if c = '"' then
        match rest with
        | c2 :: rest2 =>
            if c2 = '"' then csvLineGo rest2 true (cur ++ ['"'])
            else csvLineGo (c2 :: rest2) false cur
        | [] => csvLineGo [] false cur
      else csvLineGo rest true (cur ++ [c])
  | c :: rest, false, cur =>
      if c = '"' then csvLineGo rest true cur
      else if c = ',' then cur :: csvLineGo rest false []
      else csvLineGo rest false (cur ++ [c])

/-- Function `parseCSVLine` from `import.ts` / `export.ts`. -/
def parseCSVLine (line : List Char) : List (List Char) :=
  csvLineGo line false []

/-- Last-write-wins lookup in an assignment-ordered record. -/
def recGet : List (String × String) → String → Option String
  | [], _ => none
  | (k2, v) :: rest, k =>
      match recGet rest k with
      | some v2 => some v2
      | none => if k2 = k then some v else none

/-- The object construction of `parseCSV`: assign
`obj[header.trim()] = values[idx]?.trim() ?? ''` in header order. -/
def buildRowTrim : List (List Char) → List (List Char) → List (String × String)
  | [], _ => []
  | h :: hs, [] => (String.mk (jsTrim h), "") :: buildRowTrim hs []
  | h :: hs, v :: vs => (String.mk (jsTrim h), String.mk (jsTrim v)) :: buildRowTrim hs vs

/-- Function `parseCSV` from `import.ts`: split on `/\r?\n/`, drop lines
that are blank after trimming, parse the first surviving line as the
header, then build one trimmed record per remaining line, skipping lines
whose parse is a single empty field. -/
def parseCSV (content : String) : List (List (String × String)) :=
  let lines := (splitLinesJS content.data).filter (fun l => decide (jsTrim l ≠ []))
  match lines with
  | [] => []
  | headerLine :: rest =>
      let headers := parseCSVLine headerLine
      rest.filterMap (fun line =>
        let values := parseCSVLine line
        if values.length = 0 ∨ (values.length = 1 ∧ values.headD [] = []) then none
        else some (buildRowTrim headers values))


/-- The `ImportError` record from `import.ts`: the `value` is the offending
field value (`none` = the property was absent). -/
structure ImportError where
  row : Nat
  field : String
  message : String
  value : Option String
deriving DecidableEq

/-- The `ImportValidationResult` record from `import.ts`. -/
structure ImportValidationResult where
  isValid : Bool
  errors : List ImportError
  validRows : Nat
  invalidRows : Nat
deriving DecidableEq

/-- The `pubkey` field validator (string values; `typeof` is always
`string` for rows coming from `parseCSV`). -/
def validatePubkey (v : String) : Option String :=
  if (jsTrim v.data).length = 0 then some "Pubkey is required and must be a non-empty string"
  else if v.length < 32 then some "Pubkey must be at least 32 characters"
  else none

/-- ASCII model of `String.prototype.toLowerCase` (character-wise). -/
def jsToLower (s : String) : String := String.mk (s.data.map Char.toLower)

/-- The `status` field validator. -/
def validateStatus (v : String) : Option String :=
  if jsToLower v = "online" ∨ jsToLower v = "offline" then none
  else some "Status must be one of: online, offline"

/-- The `healthScore` field validator. -/
def validateHealthScore (toNum : String → JSNum) (v : String) : Option String :=
  match toNum v with
  | JSNum.fin q =>
      if q < 0 ∨ 100 < q then some "Health score must be a number between 0 and 100" else none
  | _ => some "Health score must be a number between 0 and 100"

/-- The shared shape of the `uptime` / `storageUsed` / `storageTotal`
validators: finite and non-negative. -/
def validateNonnegNum (toNum : String → JSNum) (msg : String) (v : String) : Option String :=
  match toNum v with
  | JSNum.fin q => if q < 0 then some msg else none
  | _ => some msg

/-- The `isPublic` field validator. -/
def validateIsPublic (v : String) : Option String :=
  if jsToLower v ∈ (["true", "false", "yes", "no", "1", "0"] : List String) then none
  else some "Public access must be true/false, yes/no, or 1/0"

/-- One `\d` group of one to three digits. -/
def digitsGroup13 (l : List Char) : Bool :=
  decide (1 ≤ l.length) && decide (l.length ≤ 3) && l.all Char.isDigit

/-- The `ip` field validator: the dotted-quad shape test of the regex. -/
def validateIp (v : String) : Option String :=
  match splitOnChar '.' v.data with
  | [a, b, c, d] =>
      if digitsGroup13 a && digitsGroup13 b && digitsGroup13 c && digitsGroup13 d then none
      else some "Invalid IP address format"
  | _ => some "Invalid IP address format"

/-- The `rpcPort` field validator. -/
def validateRpcPort (toNum : String → JSNum) (v : String) : Option String :=
  match toNum v with
  | JSNum.fin q =>
      if q.den = 1 ∧ 1 ≤ q ∧ q ≤ 65535 then none
      else some "RPC port must be an integer between 1 and 65535"
  | _ => some "RPC port must be an integer between 1 and 65535"

/-- The entries of `FIELD_VALIDATORS`, in insertion order. -/
def fieldValidators (toNum : String → JSNum) : List (String × (String → Option String)) :=
  [("pubkey", validatePubkey),
   ("status", validateStatus),
   ("healthScore", validateHealthScore toNum),
   ("uptime", validateNonnegNum toNum "Uptime must be a non-negative number"),
   ("storageUsed", validateNonnegNum toNum "Storage used must be a non-negative number"),
   ("storageTotal", validateNonnegNum toNum "Storage total must be a non-negative number"),
   ("isPublic", validateIsPublic),
   ("ip", validateIp),
   ("rpcPort", validateRpcPort toNum)]

/-- The `undefined / null / ''` test used for required fields and for
skipping validators. -/
def fieldAbsent (r : List (String × String)) (f : String) : Bool :=
  match recGet r f with
  | none => true
  | some v => v = ""

/-- Function `validateRow` from `import.ts`: required-field errors first
(in `REQUIRED_FIELDS` order), then per-field validator errors (in
`FIELD_VALIDATORS` order), skipping absent/empty fields. -/
def validateRow (toNum : String → JSNum) (r : List (String × String)) (rowIndex : Nat) :
    List ImportError :=
  ((["pubkey", "status"] : List String).filterMap (fun f =>
      if fieldAbsent r f then
        some { row := rowIndex, field := f
               message := "Missing required field: " ++ f, value := recGet r f }
      else none))
  ++ ((fieldValidators toNum).filterMap (fun p =>
      match recGet r p.1 with
      | none => none
      | some v =>
          if v = "" then none
          else
            match p.2 v with
            | none => none
            | some msg => some { row := rowIndex, field := p.1, message := msg, value := some v }))

/-- Function `validateImportData` from `import.ts`: validate each row with
a 1-indexed row number, collect all errors, and count rows with no errors
as valid. -/
def validateImportData (toNum : String → JSNum) (rows : List (List (String × String))) :
    ImportValidationResult :=
  let errLists := rows.enum.map (fun p => validateRow toNum p.2 (p.1 + 1))
  { isValid := decide ((errLists.filter (fun es => decide (¬ es = []))).length = 0)
    errors := errLists.flatten
    validRows := (errLists.filter (fun es => decide (es = []))).length
    invalidRows := (errLists.filter (fun es => decide (¬ es = []))).length }


/-- The export column keys (`EXPORT_COLUMNS`) from `export.ts`. -/
inductive Col where
  | rank | pubkey | status | healthScore | uptime | storageUsed | storageTotal
  | storageUsagePercent | version | ip | isPublic | rpcPort | lastSeen | percentile
deriving DecidableEq, Fintype

/-- The column labels of `EXPORT_COLUMNS`. -/
def colLabel : Col → String
  | Col.rank => "Rank"
  | Col.pubkey => "Pubkey"
  | Col.status => "Status"
  | Col.healthScore => "Health Score"
  | Col.uptime => "Uptime (days)"
  | Col.storageUsed => "Storage Used"
  | Col.storageTotal => "Storage Total"
  | Col.storageUsagePercent => "Storage Usage %"
  | Col.version => "Version"
  | Col.ip => "IP Address"
  | Col.isPublic => "Public Access"
  | Col.rpcPort => "RPC Port"
  | Col.lastSeen => "Last Seen"
  | Col.percentile => "Percentile"

/-- The `string | number` returned by `formatNodeValue` (booleans are
rendered to `Yes`/`No` strings by the function itself). -/
inductive CellVal where
  | str : String → CellVal
  | num : JSNum → CellVal
deriving DecidableEq

/-- The status union value as the string it is in JavaScript. -/
def statusStr : Status → String
  | Status.online => "online"
  | Status.offline => "offline"

/-- Model of `Number(x.toFixed(2))`: round to two decimals, half away from
zero toward the larger candidate; `NaN`/infinities render and re-parse to
themselves. -/
def jsToFixed2 : JSNum → JSNum
  | JSNum.nan => JSNum.nan
  | JSNum.inf => JSNum.inf
  | JSNum.ninf => JSNum.ninf
  | JSNum.fin q => JSNum.fin ((⌊q * 100 + 1/2⌋ : ℤ) / (100 : ℚ))

/-- Function `formatNodeValue` from `export.ts` (for `rpcPort`, handled by
the source's default branch, the `String(value)` coercion is deferred to
`cellToString`, which renders the same characters). -/
def formatNodeValue (node : Node) : Col → CellVal
  | Col.storageUsed => CellVal.num node.storageUsed
  | Col.storageTotal => CellVal.num node.storageTotal
  | Col.uptime => CellVal.num (jsToFixed2 node.uptime)
  | Col.storageUsagePercent => CellVal.num (jsToFixed2 node.storageUsagePercent)
  | Col.healthScore => CellVal.num (node.healthScore.getD (JSNum.fin 0))
  | Col.isPublic => CellVal.str (if node.isPublic then "Yes" else "No")
  | Col.rank =>
      match node.rank with
      | some x => CellVal.num x
      | none => CellVal.str "-"
  | Col.pubkey => CellVal.str node.pubkey
  | Col.status => CellVal.str (statusStr node.status)
  | Col.version => CellVal.str node.version
  | Col.ip => CellVal.str node.ip
  | Col.lastSeen => CellVal.str node.lastSeen
  | Col.rpcPort => CellVal.num node.rpcPort
  | Col.percentile =>
      match node.percentile with
      | some s => CellVal.str s
      | none => CellVal.str ""

/-- The `String(value)` step of `escapeCSVValue` (`nts` renders numbers). -/
def cellToString (nts : JSNum → String) : CellVal → String
  | CellVal.str s => s
  | CellVal.num x => nts x

/-- Whether `escapeCSVValue` wraps the value in quotes. -/
def needsQuote (s : String) : Bool :=
  s.data.any (fun c => c = ',' ∨ c = '"' ∨ c = '\n' ∨ c = '\r')

/-- The `replace(/"/g, '""')` step. -/
def doubleQuotes : List Char → List Char
  | [] => []
  | c :: rest => if c = '"' then '"' :: '"' :: doubleQuotes rest else c :: doubleQuotes rest

/-- Function `escapeCSVValue` from `export.ts`, on an already-rendered
string. -/
def escapeCSVString (s : String) : String :=
  if needsQuote s then String.mk ('"' :: (doubleQuotes s.data ++ ['"'])) else s

/-- Model of `Array.prototype.join` with a separator, on character lists. -/
def joinSep (sep : List Char) : List (List Char) → List Char
  | [] => []
  | [x] => x
  | x :: y :: rest => x ++ sep ++ joinSep sep (y :: rest)

/-- The rendered CSV line of one node for a column selection. -/
def rowLine (nts : JSNum → String) (cols : List Col) (node : Node) : List Char :=
  joinSep [','] (cols.map (fun c => (escapeCSVString (cellToString nts (formatNodeValue node c))).data))

/-- The rendered CSV header line for a column selection. -/
def headerLine (cols : List Col) : List Char :=
  joinSep [','] (cols.map (fun c => (escapeCSVString (colLabel c)).data))

/-- Function `exportToCSV` from `export.ts`: optional header line, one
line per node, joined by `\n`. -/
def exportToCSV (nts : JSNum → String) (nodes : List Node) (cols : List Col)
    (includeHeader : Bool) : String :=
  let hl := if includeHeader then [headerLine cols] else []
  String.mk (joinSep ['\n'] (hl ++ nodes.map (rowLine nts cols)))

/-- The object construction of `parseCSVToObjects`:
`obj[header] = values[idx] ?? ''` in header order, without trimming. -/
def buildRowNoTrim : List (List Char) → List (List Char) → List (String × String)
  | [], _ => []
  | h :: hs, [] => (String.mk h, "") :: buildRowNoTrim hs []
  | h :: hs, v :: vs => (String.mk h, String.mk v) :: buildRowNoTrim hs vs

/-- Function `parseCSVToObjects` from `export.ts`: split on the exact
character `\n`, drop blank-after-trim lines, need at least a header and
one data line, then build one record per line (no trimming, no
row-skipping). -/
def parseCSVToObjects (csv : String) : List (List (String × String)) :=
  let lines := (splitOnChar '\n' csv.data).filter (fun l => decide (jsTrim l ≠ []))
  if lines.length < 2 then []
  else
    match lines with
    | [] => []
    | hl :: rest => rest.map (fun line => buildRowNoTrim (parseCSVLine hl) (parseCSVLine line))

/-- The columns exported as the exact underlying string field (every other
column's rendering is lossy or numeric). -/
def nonLossy : Col → Bool
  | Col.pubkey => true
  | Col.status => true
  | Col.version => true
  | Col.ip => true
  | Col.lastSeen => true
  | _ => false

/-- The raw string field exported by a non-lossy column. -/
def rawField (n : Node) : Col → String
  | Col.pubkey => n.pubkey
  | Col.status => statusStr n.status
  | Col.version => n.version
  | Col.ip => n.ip
  | Col.lastSeen => n.lastSeen
  | _ => ""

/-- A node whose pubkey is the empty string. -/
def emptyPubkeyNode : Node :=
  { exampleNodeC1 with pubkey := "" }

/-- A node whose pubkey contains a comma. -/
def commaPubkeyNode : Node :=
  { exampleNodeC1 with pubkey := "AB,CD" }

/-- C1: the claim states that `calculateHealthScore` always returns an
integer in `[0,100]` and that `storageTotal ≤ 0` makes the storage term
contribute 0, so the spec's example node scores 75.  The code has no such
guard: at the example node (uptime 30, `storageCommitted` 100,
`storageTotal` 0, latest version, public) the division produces `Infinity`,
the score saturates and `Math.min` caps it at 100 — not 75 — and with
`storageCommitted = 0` as well the division is `0/0 = NaN`, which propagates
to a `NaN` result, outside `[0,100]`. -/
theorem calculateHealthScore_unguarded_zero_storageTotal :
    calculateHealthScore exampleNodeC1 "1.0.0" = JSNum.fin 100
    ∧ calculateHealthScore exampleNodeC1 "1.0.0" ≠ JSNum.fin 75
    ∧ calculateHealthScore exampleNodeC1zero "1.0.0" = JSNum.nan := by
  refine ⟨?_, ?_, ?_⟩
  all_goals
    simp [calculateHealthScore, exampleNodeC1, exampleNodeC1zero, JSNum.div, JSNum.jmin,
      JSNum.ltb, JSNum.mul]
  all_goals norm_num [JSNum.add, JSNum.round, JSNum.jmin, JSNum.ltb]
  all_goals simp

/-- C10: `computeNodes` preserves length and order, changes only the
`healthScore` field of each record, and sets it to `calculateHealthScore`
of that record against `getLatestVersion` of the whole input list.  (The
embedding is pure, so the input list is trivially unmutated.) -/
theorem computeNodes_frame (toNum : String → JSNum) (l : List Node) :
    (computeNodes toNum l).length = l.length
    ∧ ∀ i : Nat, (computeNodes toNum l)[i]? =
        (l[i]?).map (fun n =>
          { n with healthScore := some (calculateHealthScore n (getLatestVersion toNum l)) }) := by
  refine ⟨by simp [computeNodes], fun i => ?_⟩
  simp [computeNodes]

/-- Helper: the list of components compared when a component is `0` on one
side behaves antisymmetrically. -/
theorem cmpComponents_nil_anti (ys : List ℚ) :
    cmpComponents [] ys = -(cmpComponents ys []) := by
  induction ys with
  | nil => simp [cmpComponents]
  | cons b ys ih =>
    simp only [cmpComponents]
    by_cases hb : b = 0
    · simp [hb, ih]
    · by_cases h0 : 0 < b <;> simp [hb, h0]

/-- Helper: antisymmetry of the component comparison loop. -/
theorem cmpComponents_anti (xs : List ℚ) : ∀ ys : List ℚ,
    cmpComponents xs ys = -(cmpComponents ys xs) := by
  induction xs with
  | nil => exact cmpComponents_nil_anti
  | cons a xs ih =>
    intro ys
    cases ys with
    | nil =>
      have h := cmpComponents_nil_anti (a :: xs)
      omega
    | cons b ys =>
      simp only [cmpComponents]
      by_cases hab : a = b
      · simp [hab, ih ys]
      · have hba : ¬ b = a := fun h => hab h.symm
        rcases lt_or_gt_of_ne hab with h1 | h1
        · simp [hab, hba, h1, asymm h1]
        · simp [hab, hba, h1, asymm h1]

/-- Helper: the component comparison loop is reflexively zero. -/
theorem cmpComponents_self (xs : List ℚ) : cmpComponents xs xs = 0 := by
  induction xs with
  | nil => simp [cmpComponents]
  | cons a xs ih => simp [cmpComponents, ih]

/-- Helper: the component comparison loop only returns `-1`, `0` or `1`. -/
theorem cmpComponents_range (xs : List ℚ) : ∀ ys : List ℚ,
    cmpComponents xs ys = -1 ∨ cmpComponents xs ys = 0 ∨ cmpComponents xs ys = 1 := by
  induction xs with
  | nil =>
    intro ys
    induction ys with
    | nil => simp [cmpComponents]
    | cons b ys ihy =>
      simp only [cmpComponents]
      by_cases hb : b = 0
      · simpa [hb] using ihy
      · by_cases h0 : 0 < b <;> simp [hb, h0]
  | cons a xs ih =>
    intro ys
    cases ys with
    | nil =>
      simp only [cmpComponents]
      by_cases ha : a = 0
      · simpa [ha] using ih []
      · by_cases h0 : 0 < a <;> simp [ha, h0]
    | cons b ys =>
      simp only [cmpComponents]
      by_cases hab : a = b
      · simpa [hab] using ih ys
      · by_cases h1 : b < a <;> simp [hab, h1]

/-- Helper: `padZeros` on a cons with a successor bound. -/
theorem padZeros_cons (a : ℚ) (l : List ℚ) (n : Nat) :
    padZeros (a :: l) (n + 1) = a :: padZeros l n := by
  simp [padZeros, Nat.succ_sub_succ]

/-- Helper: the component comparison loop agrees with the spec's
explicitly-padded left-to-right comparison. -/
theorem cmpComponents_eq_cmpPaddedSpec (xs : List ℚ) : ∀ ys : List ℚ,
    cmpComponents xs ys = cmpPaddedSpec xs ys := by
  induction xs with
  | nil =>
    intro ys
    induction ys with
    | nil => simp [cmpComponents, cmpPaddedSpec, padZeros, lexCmp]
    | cons b ys ihy =>
      simp only [cmpComponents, cmpPaddedSpec, padZeros, List.nil_append] at ihy ⊢
      simp only [List.length_nil, List.length_cons, Nat.zero_max, Nat.sub_zero,
        List.replicate_succ, lexCmp]
      by_cases hb : b = 0
      · subst hb
        simpa using ihy
      · by_cases h0 : 0 < b
        · simp [hb, h0, lt_asymm h0]
        · have hneg : b < 0 := lt_of_le_of_ne (not_lt.mp h0) hb
          simp [hb, h0, hneg]
  | cons a xs ih =>
    intro ys
    cases ys with
    | nil =>
      have ihn := ih []
      simp only [cmpComponents, cmpPaddedSpec, padZeros, List.nil_append] at ihn ⊢
      simp only [List.length_cons, List.length_nil, Nat.max_zero, Nat.sub_zero,
        List.replicate_succ, lexCmp, Nat.sub_self, List.replicate, List.append_nil]
      by_cases ha : a = 0
      · subst ha
        simpa using ihn
      · by_cases h0 : 0 < a
        · simp [ha, h0, lt_asymm h0]
        · have hneg : a < 0 := lt_of_le_of_ne (not_lt.mp h0) ha
          simp [ha, h0, hneg]
    | cons b ys =>
      have ihy := ih ys
      simp only [cmpComponents, cmpPaddedSpec] at ihy ⊢
      simp only [List.length_cons, Nat.succ_max_succ, padZeros_cons, lexCmp]
      by_cases hab : a = b
      · simp [hab, ihy, padZeros]
      · rcases lt_or_gt_of_ne hab with h1 | h1
        · simp [hab, h1, asymm h1, ihy, padZeros]
        · simp [hab, h1, asymm h1, ihy, padZeros]

/-- C9: for all version strings and any `Number` coercion, `compareVersions`
is antisymmetric, reflexively zero, valued in `-1/0/1` (so in particular it
is total and never throws), and equals the spec's zero-padded left-to-right
component comparison. -/
theorem compareVersions_spec (toNum : String → JSNum) (a b : String) :
    compareVersions toNum a b = -(compareVersions toNum b a)
    ∧ compareVersions toNum a a = 0
    ∧ (compareVersions toNum a b = -1 ∨ compareVersions toNum a b = 0
        ∨ compareVersions toNum a b = 1)
    ∧ compareVersions toNum a b = cmpPaddedSpec (parseVersion toNum a) (parseVersion toNum b) :=
  ⟨cmpComponents_anti (parseVersion toNum a) (parseVersion toNum b),
   cmpComponents_self (parseVersion toNum a),
   cmpComponents_range (parseVersion toNum a) (parseVersion toNum b),
   cmpComponents_eq_cmpPaddedSpec (parseVersion toNum a) (parseVersion toNum b)⟩

/-- C6: `getNetworkStats` on the empty list returns all-zero counts,
storage totals, averages and utilisation with latest version `"0.0.0"`;
whenever no node is online the averages (and utilisation) are exactly 0,
and whenever the summed online storage is 0 the utilisation is 0 — never
`NaN`. -/
theorem getNetworkStats_spec (toNum : String → JSNum) :
    getNetworkStats toNum [] =
      { totalNodes := 0, onlineNodes := 0, offlineNodes := 0
        totalStorage := JSNum.fin 0, usedStorage := JSNum.fin 0
        storageUtilization := JSNum.fin 0, avgUptime := JSNum.fin 0
        avgHealthScore := JSNum.fin 0, publicNodes := 0, privateNodes := 0
        latestVersion := "0.0.0" }
    ∧ (∀ nodes : List Node, (∀ n ∈ nodes, n.status ≠ Status.online) →
        (getNetworkStats toNum nodes).avgUptime = JSNum.fin 0
        ∧ (getNetworkStats toNum nodes).avgHealthScore = JSNum.fin 0
        ∧ (getNetworkStats toNum nodes).storageUtilization = JSNum.fin 0)
    ∧ (∀ nodes : List Node, (getNetworkStats toNum nodes).totalStorage = JSNum.fin 0 →
        (getNetworkStats toNum nodes).storageUtilization = JSNum.fin 0) := by
  refine ⟨?_, ?_, ?_⟩
  · simp [getNetworkStats, getLatestVersion, JSNum.div, JSNum.gtb, JSNum.ltb]
  · intro nodes h
    have hfil : nodes.filter (fun n => decide (n.status = Status.online)) = [] := by
      rw [List.filter_eq_nil_iff]
      intro a ha
      simpa using h a ha
    refine ⟨?_, ?_, ?_⟩ <;>
      simp [getNetworkStats, hfil, JSNum.div, JSNum.gtb, JSNum.ltb]
  · intro nodes h
    simp only [getNetworkStats] at h ⊢
    rw [h]
    simp [JSNum.gtb, JSNum.ltb]

/-- Witness for C6 at a concrete all-offline list. -/
theorem getNetworkStats_spec_witness :
    (∀ n ∈ [offlineNodeA], n.status ≠ Status.online)
    ∧ (getNetworkStats jsParseNum [offlineNodeA]).avgUptime = JSNum.fin 0
    ∧ (getNetworkStats jsParseNum [offlineNodeA]).avgHealthScore = JSNum.fin 0
    ∧ (getNetworkStats jsParseNum [offlineNodeA]).storageUtilization = JSNum.fin 0 := by
  have h : ∀ n ∈ [offlineNodeA], n.status ≠ Status.online := by
    simp [offlineNodeA, exampleNodeC1]
  have hc := (getNetworkStats_spec jsParseNum).2.1 [offlineNodeA] h
  exact ⟨h, hc.1, hc.2.1, hc.2.2⟩

/-- Helper: the keys of `bumpVersion` are unchanged when the version is
already present, else the version is appended. -/
theorem bumpVersion_keys (m : List (String × Nat)) (v : String) :
    (bumpVersion m v).map Prod.fst =
      if v ∈ m.map Prod.fst then m.map Prod.fst else m.map Prod.fst ++ [v] := by
  induction m with
  | nil => simp [bumpVersion]
  | cons p m ih =>
    obtain ⟨w, c⟩ := p
    simp only [bumpVersion]
    by_cases hw : w = v
    · simp [hw]
    · have hvw : ¬ v = w := fun h => hw h.symm
      by_cases hv : v ∈ m.map Prod.fst <;> simp [hw, hvw, hv, ih]

/-- Helper: membership in the keys of `bumpVersion`. -/
theorem bumpVersion_mem_keys (m : List (String × Nat)) (w v : String) :
    v ∈ (bumpVersion m w).map Prod.fst ↔ v ∈ m.map Prod.fst ∨ v = w := by
  rw [bumpVersion_keys]
  by_cases h : w ∈ m.map Prod.fst
  · simp only [h, if_true]
    constructor
    · exact Or.inl
    · rintro (hv | rfl)
      · exact hv
      · exact h
  · simp [h]

/-- Helper: `bumpVersion` increments exactly the looked-up count of its
version. -/
theorem bumpVersion_lookup (m : List (String × Nat)) (v w : String) :
    lookupCount (bumpVersion m v) w =
      if w = v then lookupCount m v + 1 else lookupCount m w := by
  induction m with
  | nil =>
    by_cases h : w = v
    · simp [bumpVersion, lookupCount, h]
    · have h2 : ¬ v = w := fun hh => h hh.symm
      simp [bumpVersion, lookupCount, h, h2]
  | cons p m ih =>
    obtain ⟨u, c⟩ := p
    simp only [bumpVersion]
    by_cases hu : u = v
    · subst hu
      by_cases hw : u = w
      · subst hw
        simp [lookupCount]
      · have hwv : ¬ w = u := fun h => hw h.symm
        simp [lookupCount, hw, hwv]
    · simp only [hu, if_false, lookupCount]
      by_cases hw : u = w
      · subst hw
        have hwv : ¬ u = v := hu
        simp [lookupCount, hwv]
      · simp [hw, ih]

/-- Helper: `bumpVersion` increases the total of the counts by one. -/
theorem bumpVersion_sum (m : List (String × Nat)) (v : String) :
    ((bumpVersion m v).map Prod.snd).sum = (m.map Prod.snd).sum + 1 := by
  induction m with
  | nil => simp [bumpVersion]
  | cons p m ih =>
    obtain ⟨w, c⟩ := p
    simp only [bumpVersion]
    by_cases hw : w = v
    · simp [hw]
      omega
    · simp [hw, ih]
      omega

/-- Helper: in a map with distinct keys, every entry carries its looked-up
count. -/
theorem lookupCount_of_mem (m : List (String × Nat)) (hm : (m.map Prod.fst).Nodup)
    (p : String × Nat) (hp : p ∈ m) : p.2 = lookupCount m p.1 := by
  induction m with
  | nil => cases hp
  | cons q m ih =>
    obtain ⟨u, c⟩ := q
    simp only [List.map_cons, List.nodup_cons] at hm
    rcases List.mem_cons.mp hp with rfl | hp2
    · simp [lookupCount]
    · have hne : ¬ u = p.1 := by
        intro h
        exact hm.1 (h ▸ (List.mem_map.mpr ⟨p, hp2, rfl⟩))
      simp only [lookupCount, hne, if_false]
      exact ih hm.2 hp2

/-- Helper: membership in the keys of the grouping fold. -/
theorem foldBump_mem_keys (l : List Node) : ∀ (m : List (String × Nat)) (v : String),
    v ∈ ((l.foldl (fun m n => bumpVersion m n.version) m).map Prod.fst) ↔
      v ∈ m.map Prod.fst ∨ v ∈ l.map Node.version := by
  induction l with
  | nil => simp
  | cons n l ih =>
    intro m v
    simp only [List.foldl_cons, List.map_cons, List.mem_cons]
    rw [ih, bumpVersion_mem_keys]
    tauto

/-- Helper: the grouping fold preserves distinctness of keys. -/
theorem foldBump_nodup (l : List Node) : ∀ m : List (String × Nat),
    (m.map Prod.fst).Nodup → ((l.foldl (fun m n => bumpVersion m n.version) m).map Prod.fst).Nodup := by
  induction l with
  | nil => exact fun m hm => hm
  | cons n l ih =>
    intro m hm
    refine ih _ ?_
    rw [bumpVersion_keys]
    by_cases h : n.version ∈ m.map Prod.fst
    · simpa [h] using hm
    · simp only [h, if_false]
      simp [List.nodup_append, hm, h]

/-- Helper: the grouping fold counts occurrences of each version. -/
theorem foldBump_lookup (l : List Node) : ∀ (m : List (String × Nat)) (v : String),
    lookupCount (l.foldl (fun m n => bumpVersion m n.version) m) v =
      lookupCount m v + (l.map Node.version).count v := by
  induction l with
  | nil => simp
  | cons n l ih =>
    intro m v
    simp only [List.foldl_cons, List.map_cons]
    rw [ih, bumpVersion_lookup]
    rw [List.count_cons]
    by_cases h : v = n.version
    · subst h
      simp
      omega
    · have h2 : ¬ n.version = v := fun hh => h hh.symm
      simp [h, h2]

/-- Helper: the grouping fold sums counts to the number of nodes. -/
theorem foldBump_sum (l : List Node) : ∀ m : List (String × Nat),
    ((l.foldl (fun m n => bumpVersion m n.version) m).map Prod.snd).sum =
      (m.map Prod.snd).sum + l.length := by
  induction l with
  | nil => simp
  | cons n l ih =>
    intro m
    simp only [List.foldl_cons, List.length_cons]
    rw [ih, bumpVersion_sum]
    omega

/-- C7: `getNodesByVersion` has one entry per distinct version string
(distinct keys; the keys are exactly the versions occurring in the list),
each entry's count is the number of nodes with that version, the counts sum
to the node count, and each percentage is exactly `count / total * 100`
(no entry exists on the empty list, so no division by zero occurs). -/
theorem getNodesByVersion_spec (l : List Node) :
    ((getNodesByVersion l).map VersionEntry.version).Nodup
    ∧ (∀ v : String, v ∈ (getNodesByVersion l).map VersionEntry.version ↔ v ∈ l.map Node.version)
    ∧ ((getNodesByVersion l).map VersionEntry.count).sum = l.length
    ∧ (∀ e ∈ getNodesByVersion l,
        e.count = (l.map Node.version).count e.version
        ∧ e.percentage = JSNum.fin ((e.count : ℚ) / (l.length : ℚ) * 100)) := by
  have hkeys : ((getNodesByVersion l).map VersionEntry.version)
      = ((l.foldl (fun m n => bumpVersion m n.version) []).map Prod.fst) := by
    simp [getNodesByVersion, List.map_map]
  refine ⟨?_, ?_, ?_, ?_⟩
  · rw [hkeys]
    exact foldBump_nodup l [] (by simp)
  · intro v
    rw [hkeys, foldBump_mem_keys]
    simp
  · have : ((getNodesByVersion l).map VersionEntry.count)
        = ((l.foldl (fun m n => bumpVersion m n.version) []).map Prod.snd) := by
      simp [getNodesByVersion, List.map_map]
    rw [this]
    simpa using foldBump_sum l []
  · intro e he
    simp only [getNodesByVersion, List.mem_map] at he
    obtain ⟨p, hp, rfl⟩ := he
    have hnodup := foldBump_nodup l [] (by simp)
    have hcount : p.2 = (l.map Node.version).count p.1 := by
      have h1 := lookupCount_of_mem _ hnodup p hp
      have h2 := foldBump_lookup l [] p.1
      simp only [lookupCount] at h2
      omega
    have hmem : p.1 ∈ l.map Node.version := by
      have := (foldBump_mem_keys l [] p.1).mp (List.mem_map.mpr ⟨p, hp, rfl⟩)
      simpa using this
    have hlen : (l.length : ℚ) ≠ 0 := by
      have : l ≠ [] := by
        intro h
        rw [h] at hmem
        simp at hmem
      exact_mod_cast Nat.cast_ne_zero.mpr (by
        intro h0
        exact this (List.length_eq_zero.mp h0))
    refine ⟨hcount, ?_⟩
    simp [JSNum.div, JSNum.mul, hlen]

/-- Witness for C7 at the claim's four-node example: three nodes on
`"1.0.0"` and one on `"2.0.0"` give the 75-percent entry. -/
theorem getNodesByVersion_spec_witness :
    (⟨"1.0.0", 3, JSNum.fin 75⟩ : VersionEntry) ∈ getNodesByVersion exampleNodes4
    ∧ (⟨"1.0.0", 3, JSNum.fin 75⟩ : VersionEntry).count
        = (exampleNodes4.map Node.version).count
            (⟨"1.0.0", 3, JSNum.fin 75⟩ : VersionEntry).version
    ∧ (⟨"1.0.0", 3, JSNum.fin 75⟩ : VersionEntry).percentage
        = JSNum.fin ((((⟨"1.0.0", 3, JSNum.fin 75⟩ : VersionEntry).count : ℕ) : ℚ)
            / (exampleNodes4.length : ℚ) * 100) := by
  have hmem : (⟨"1.0.0", 3, JSNum.fin 75⟩ : VersionEntry) ∈ getNodesByVersion exampleNodes4 := by
    simp [getNodesByVersion, exampleNodes4, bumpVersion, exampleNodeC1, JSNum.div, JSNum.mul]
    norm_num
  have h := (getNodesByVersion_spec exampleNodes4).2.2.2 _ hmem
  exact ⟨hmem, h.1, h.2⟩

/-- Helper: the sort key is never `NaN` (`|| 0` zeroes `NaN`). -/
theorem scoreKey_ne_nan (n : Node) : scoreKey n ≠ JSNum.nan := by
  unfold scoreKey
  cases n.healthScore with
  | none => simp
  | some v =>
    cases v with
    | nan => simp [JSNum.truthy]
    | inf => simp [JSNum.truthy]
    | ninf => simp [JSNum.truthy]
    | fin q =>
      by_cases h : q = 0 <;> simp [JSNum.truthy, h]

/-- Helper: a non-negative comparator difference means greater-or-equal,
for non-`NaN` operands. -/
theorem jsub_ltb_zero_false (a b : JSNum) (ha : a ≠ JSNum.nan) (hb : b ≠ JSNum.nan)
    (h : JSNum.ltb (JSNum.sub a b) (JSNum.fin 0) = false) : JSNum.geb a b = true := by
  cases a with
  | nan => exact absurd rfl ha
  | inf =>
    cases b with
    | nan => exact absurd rfl hb
    | inf => simp [JSNum.geb, JSNum.leb]
    | ninf => simp [JSNum.geb, JSNum.leb]
    | fin q => simp [JSNum.geb, JSNum.leb]
  | ninf =>
    cases b with
    | nan => exact absurd rfl hb
    | inf => simp [JSNum.sub, JSNum.neg, JSNum.add, JSNum.ltb] at h
    | ninf => simp [JSNum.geb, JSNum.leb]
    | fin q => simp [JSNum.sub, JSNum.neg, JSNum.add, JSNum.ltb] at h
  | fin p =>
    cases b with
    | nan => exact absurd rfl hb
    | inf => simp [JSNum.sub, JSNum.neg, JSNum.add, JSNum.ltb] at h
    | ninf => simp [JSNum.geb, JSNum.leb]
    | fin q =>
      simp [JSNum.sub, JSNum.neg, JSNum.add, JSNum.ltb] at h
      simp [JSNum.geb, JSNum.leb]
      linarith

/-- Helper: a negative comparator difference means strictly smaller, for
non-`NaN` operands. -/
theorem jsub_ltb_zero_true (a b : JSNum) (ha : a ≠ JSNum.nan) (hb : b ≠ JSNum.nan)
    (h : JSNum.ltb (JSNum.sub a b) (JSNum.fin 0) = true) :
    JSNum.geb b a = true ∧ a ≠ b := by
  cases a with
  | nan => exact absurd rfl ha
  | inf =>
    cases b with
    | nan => exact absurd rfl hb
    | inf => simp [JSNum.sub, JSNum.neg, JSNum.add, JSNum.ltb] at h
    | ninf => simp [JSNum.sub, JSNum.neg, JSNum.add, JSNum.ltb] at h
    | fin q => simp [JSNum.sub, JSNum.neg, JSNum.add, JSNum.ltb] at h
  | ninf =>
    cases b with
    | nan => exact absurd rfl hb
    | inf => simp [JSNum.geb, JSNum.leb]
    | ninf => simp [JSNum.sub, JSNum.neg, JSNum.add, JSNum.ltb] at h
    | fin q => simp [JSNum.geb, JSNum.leb]
  | fin p =>
    cases b with
    | nan => exact absurd rfl hb
    | inf => simp [JSNum.geb, JSNum.leb]
    | ninf => simp [JSNum.sub, JSNum.neg, JSNum.add, JSNum.ltb] at h
    | fin q =>
      simp [JSNum.sub, JSNum.neg, JSNum.add, JSNum.ltb] at h
      simp [JSNum.geb, JSNum.leb]
      constructor
      · linarith
      · intro hpq
        rw [hpq] at h
        linarith

/-- Helper: transitivity of `>=` on non-`NaN` values. -/
theorem jgeb_trans (a b c : JSNum) (ha : a ≠ JSNum.nan) (hb : b ≠ JSNum.nan)
    (hc : c ≠ JSNum.nan) (h1 : JSNum.geb a b = true) (h2 : JSNum.geb b c = true) :
    JSNum.geb a c = true := by
  cases a <;> cases b <;> cases c <;>
    simp_all [JSNum.geb, JSNum.leb] <;> linarith

/-- Helper: the stable insertion is a permutation-preserving cons. -/
theorem insNode_perm (x : Node) (l : List Node) : (insNode x l).Perm (x :: l) := by
  induction l with
  | nil => simp [insNode]
  | cons y ys ih =>
    by_cases h : keyLtB x y
    · simp only [insNode, if_pos h]
      exact (ih.cons y).trans (List.Perm.swap x y ys)
    · simp [insNode, h]

/-- Helper: membership after stable insertion. -/
theorem mem_insNode (z x : Node) (l : List Node) :
    z ∈ insNode x l ↔ z = x ∨ z ∈ l := by
  rw [(insNode_perm x l).mem_iff]
  simp

/-- Helper: stable insertion preserves sortedness by descending key. -/
theorem sorted_insNode (x : Node) (l : List Node)
    (hl : List.Sorted (fun a b => JSNum.geb (scoreKey a) (scoreKey b) = true) l) :
    List.Sorted (fun a b => JSNum.geb (scoreKey a) (scoreKey b) = true) (insNode x l) := by
  induction l with
  | nil => simp [insNode]
  | cons y ys ih =>
    rw [List.sorted_cons] at hl
    obtain ⟨hy, hys⟩ := hl
    by_cases h : keyLtB x y
    · simp only [insNode, if_pos h]
      rw [List.sorted_cons]
      refine ⟨?_, ih hys⟩
      intro z hz
      rcases (mem_insNode z x ys).mp hz with rfl | hzys
      · exact (jsub_ltb_zero_true _ _ (scoreKey_ne_nan _) (scoreKey_ne_nan _) h).1
      · exact hy z hzys
    · simp only [insNode, if_neg h]
      rw [List.sorted_cons]
      constructor
      · intro z hz
        have hxy : JSNum.geb (scoreKey x) (scoreKey y) = true :=
          jsub_ltb_zero_false _ _ (scoreKey_ne_nan x) (scoreKey_ne_nan y)
            (by simpa using h)
        rcases List.mem_cons.mp hz with rfl | hz2
        · exact hxy
        · exact jgeb_trans _ _ _ (scoreKey_ne_nan x) (scoreKey_ne_nan y)
            (scoreKey_ne_nan z) hxy (hy z hz2)
      · rw [List.sorted_cons]
        exact ⟨hy, hys⟩

/-- Helper: the sort is a permutation of the input. -/
theorem sortByScore_perm (l : List Node) : (sortByScore l).Perm l := by
  induction l with
  | nil => simp [sortByScore]
  | cons x xs ih =>
    exact (insNode_perm x (sortByScore xs)).trans (ih.cons x)

/-- Helper: the sort output is sorted by descending key. -/
theorem sortByScore_sorted (l : List Node) :
    List.Sorted (fun a b => JSNum.geb (scoreKey a) (scoreKey b) = true) (sortByScore l) := by
  induction l with
  | nil => simp [sortByScore]
  | cons x xs ih => exact sorted_insNode x (sortByScore xs) ih

/-- Helper: stable insertion preserves the subsequence of any fixed key. -/
theorem filter_insNode (v : JSNum) (x : Node) (l : List Node) :
    (insNode x l).filter (fun n => decide (scoreKey n = v))
      = if scoreKey x = v then x :: l.filter (fun n => decide (scoreKey n = v))
        else l.filter (fun n => decide (scoreKey n = v)) := by
  induction l with
  | nil => by_cases h : scoreKey x = v <;> simp [insNode, h]
  | cons y ys ih =>
    by_cases h : keyLtB x y
    · have hxy : scoreKey x ≠ scoreKey y :=
        (jsub_ltb_zero_true _ _ (scoreKey_ne_nan x) (scoreKey_ne_nan y) h).2
      simp only [insNode, if_pos h, List.filter_cons]
      by_cases hy : scoreKey y = v
      · have hx : ¬ scoreKey x = v := fun hh => hxy (hh.trans hy.symm)
        simp [hy, hx, ih]
      · by_cases hx : scoreKey x = v <;> simp [hy, hx, ih]
    · simp only [insNode, if_neg h, List.filter_cons]
      by_cases hx : scoreKey x = v <;> by_cases hy : scoreKey y = v <;> simp [hx, hy]

/-- Helper: the sort preserves the subsequence of any fixed key
(stability). -/
theorem filter_sortByScore (v : JSNum) (l : List Node) :
    (sortByScore l).filter (fun n => decide (scoreKey n = v))
      = l.filter (fun n => decide (scoreKey n = v)) := by
  induction l with
  | nil => simp [sortByScore]
  | cons x xs ih =>
    simp only [sortByScore, filter_insNode, ih, List.filter_cons]
    by_cases hx : scoreKey x = v <;> simp [hx]

/-- Helper: enrichment does not change the sort key. -/
theorem scoreKey_decorate (t i : Nat) (n : Node) :
    scoreKey (decorate t i n) = scoreKey n := by
  simp [decorate, scoreKey]

/-- Helper: after erasing the rank fields, enrichment is invisible. -/
theorem clearRanks_decorate (t i : Nat) (n : Node) :
    clearRanks (decorate t i n) = clearRanks n := by
  simp [decorate, clearRanks]

/-- Helper: the indexed enrichment preserves the rank-erased records. -/
theorem map_clearRanks_decorateFrom (t : Nat) :
    ∀ (i : Nat) (s : List Node),
      (decorateFrom t i s).map clearRanks = s.map clearRanks := by
  intro i s
  induction s generalizing i with
  | nil => simp [decorateFrom]
  | cons n ns ih => simp [decorateFrom, clearRanks_decorate, ih]

/-- Helper: the ranks assigned by the indexed enrichment are consecutive. -/
theorem map_rank_decorateFrom (t : Nat) :
    ∀ (i : Nat) (s : List Node),
      (decorateFrom t i s).map Node.rank
        = (List.range' (i + 1) s.length).map rankVal := by
  intro i s
  induction s generalizing i with
  | nil => simp [decorateFrom]
  | cons n ns ih =>
    simp only [decorateFrom, List.map_cons, List.length_cons]
    rw [List.range'_succ, List.map_cons, ih]
    congr 1
    simp only [decorate, rankVal]
    norm_cast

/-- Helper: membership in the indexed enrichment. -/
theorem mem_decorateFrom (t : Nat) :
    ∀ (i : Nat) (s : List Node) (z : Node), z ∈ decorateFrom t i s →
      ∃ j m, m ∈ s ∧ z = decorate t j m := by
  intro i s
  induction s generalizing i with
  | nil => simp [decorateFrom]
  | cons n ns ih =>
    intro z hz
    rcases List.mem_cons.mp hz with rfl | hz2
    · exact ⟨i, n, List.mem_cons_self n ns, rfl⟩
    · obtain ⟨j, m, hm, rfl⟩ := ih (i + 1) z hz2
      exact ⟨j, m, List.mem_cons_of_mem n hm, rfl⟩

/-- Helper: the indexed enrichment preserves sortedness by key. -/
theorem sorted_decorateFrom (t : Nat) :
    ∀ (i : Nat) (s : List Node),
      List.Sorted (fun a b => JSNum.geb (scoreKey a) (scoreKey b) = true) s →
      List.Sorted (fun a b => JSNum.geb (scoreKey a) (scoreKey b) = true)
        (decorateFrom t i s) := by
  intro i s
  induction s generalizing i with
  | nil => simp [decorateFrom]
  | cons n ns ih =>
    intro hs
    rw [List.sorted_cons] at hs
    obtain ⟨hn, hns⟩ := hs
    rw [decorateFrom, List.sorted_cons]
    refine ⟨?_, ih (i + 1) hns⟩
    intro z hz
    obtain ⟨j, m, hm, rfl⟩ := mem_decorateFrom t (i + 1) ns z hz
    rw [scoreKey_decorate, scoreKey_decorate]
    exact hn m hm

/-- C3: `rankNodes` returns the input (up to the overwritten
rank/percentile fields) sorted descending by `healthScore || 0` via a
stable sort — the subsequence of nodes of any fixed score is preserved —
and the assigned `rank` values are exactly `1..N` in order. -/
theorem rankNodes_spec (l : List Node) :
    List.Sorted (fun a b => JSNum.geb (scoreKey a) (scoreKey b) = true) (rankNodes l)
    ∧ ((rankNodes l).map clearRanks).Perm (l.map clearRanks)
    ∧ (∀ v : JSNum, ((rankNodes l).map clearRanks).filter (fun n => decide (scoreKey n = v))
        = (l.map clearRanks).filter (fun n => decide (scoreKey n = v)))
    ∧ (rankNodes l).map Node.rank
        = (List.range' 1 l.length).map rankVal := by
  have hmapclear : (rankNodes l).map clearRanks = (sortByScore l).map clearRanks := by
    rw [rankNodes]
    exact map_clearRanks_decorateFrom _ 0 (sortByScore l)
  have hkeyclear : ∀ n : Node, scoreKey (clearRanks n) = scoreKey n := by
    intro n
    simp [clearRanks, scoreKey]
  refine ⟨?_, ?_, ?_, ?_⟩
  · rw [rankNodes]
    exact sorted_decorateFrom _ 0 (sortByScore l) (sortByScore_sorted l)
  · rw [hmapclear]
    exact ((sortByScore_perm l).map clearRanks)
  · intro v
    rw [hmapclear]
    rw [List.filter_map, List.filter_map]
    have hcomp : ∀ s : List Node,
        s.filter ((fun n => decide (scoreKey n = v)) ∘ clearRanks)
          = s.filter (fun n => decide (scoreKey n = v)) := by
      intro s
      apply List.filter_congr
      intro n _
      simp [Function.comp, hkeyclear]
    rw [hcomp, hcomp, filter_sortByScore]
  · rw [rankNodes]
    rw [map_rank_decorateFrom]
    rw [(sortByScore_perm l).length_eq]

/-- Counterexample to C5 as stated: with the duplicate selection
`['online', 'online']` the code's length-based short-circuit skips the
status filter (length 2), but the selection does not contain `offline`, so
the claim's predicate composition would drop an offline node. -/
theorem applyMapFilters_dup_counterexample :
    applyMapFilters [offlineNodeA] dupOnlineFilters = [offlineNodeA]
    ∧ applyMapFiltersSpec [offlineNodeA] dupOnlineFilters = []
    ∧ applyMapFilters [offlineNodeA] dupOnlineFilters
        ≠ applyMapFiltersSpec [offlineNodeA] dupOnlineFilters := by
  refine ⟨?_, ?_, ?_⟩
  all_goals
    simp [applyMapFilters, applyMapFiltersSpec, dupOnlineFilters, offlineNodeA,
      exampleNodeC1, JSNum.gtb, JSNum.ltb, JSNum.geb, JSNum.leb]

/-- C5 (amended): for filter states whose status selection has no
duplicates and whose health range is a pair of finite bounds, and node
lists whose present health scores are finite values in `[0, 100]`,
`applyMapFilters` coincides with applying both predicate filters in
sequence — i.e. the short-circuits are behaviourally identical to the
predicate composition. -/
theorem applyMapFilters_eq_spec (nodes : List Node) (filters : MapFilters)
    (hdup : filters.statuses.Nodup)
    (hrange : ∃ qm qM : ℚ, filters.healthRange = (JSNum.fin qm, JSNum.fin qM))
    (hscores : ∀ n ∈ nodes, n.healthScore = none ∨
        ∃ q : ℚ, n.healthScore = some (JSNum.fin q) ∧ 0 ≤ q ∧ q ≤ 100) :
    applyMapFilters nodes filters = applyMapFiltersSpec nodes filters := by
  obtain ⟨qm, qM, hr⟩ := hrange
  have hstatus :
      (if 0 < filters.statuses.length ∧ filters.statuses.length < 2 then
          filterNodesByStatus nodes filters.statuses
        else nodes)
      = nodes.filter (fun n =>
          decide (filters.statuses = []) || decide (n.status ∈ filters.statuses)) := by
    match hs : filters.statuses with
    | [] =>
      simp [filterNodesByStatus]
    | [s] =>
      simp [filterNodesByStatus]
    | s1 :: s2 :: rest =>
      rw [hs] at hdup
      have h12 : s1 ≠ s2 := by
        intro h
        rw [h] at hdup
        simp at hdup
      have hrest : rest = [] := by
        cases hrest : rest with
        | nil => rfl
        | cons s3 rest2 =>
          rw [hrest] at hdup
          cases s1 <;> cases s2 <;> cases s3 <;>
            simp_all [List.nodup_cons]
      subst hrest
      have hall : ∀ n : Node, n.status ∈ ([s1, s2] : List Status) := by
        intro n
        cases hs1 : s1 <;> cases hs2 : s2 <;> cases hn : n.status <;>
          simp_all
      simp only [List.length_cons, List.length_nil]
      rw [if_neg (by omega)]
      have hpred : (fun n : Node =>
          decide (([s1, s2] : List Status) = []) || decide (n.status ∈ ([s1, s2] : List Status)))
          = fun _ : Node => true := by
        funext n
        simp [hall n]
      rw [hpred, List.filter_true]
  rw [applyMapFilters, applyMapFiltersSpec, hstatus, hr]
  dsimp only
  by_cases hc : (JSNum.gtb (JSNum.fin qm) (JSNum.fin 0)
      || JSNum.ltb (JSNum.fin qM) (JSNum.fin 100)) = true
  · rw [if_pos hc]
    rfl
  · rw [if_neg hc]
    have hc2 : ¬ (0 < qm) ∧ ¬ (qM < 100) := by
      simpa [JSNum.gtb, JSNum.ltb] using hc
    have hqm : qm ≤ 0 := not_lt.mp hc2.1
    have hqM : (100 : ℚ) ≤ qM := not_lt.mp hc2.2
    symm
    apply List.filter_eq_self.mpr
    intro n hn
    have hn2 : n ∈ nodes := List.mem_of_mem_filter hn
    rcases hscores n hn2 with hnone | ⟨q, hq, hq0, hq100⟩
    · simp only [hnone, Option.getD_none, JSNum.geb, JSNum.leb]
      simp only [Bool.and_eq_true, decide_eq_true_eq]
      exact ⟨by linarith, by linarith⟩
    · simp only [hq, Option.getD_some, JSNum.geb, JSNum.leb]
      simp only [Bool.and_eq_true, decide_eq_true_eq]
      exact ⟨by linarith, by linarith⟩

/-- Witness for the amended C5 at a concrete node and filter state. -/
theorem applyMapFilters_eq_spec_witness :
    (onlineMidFilters.statuses.Nodup)
    ∧ (∃ qm qM : ℚ, onlineMidFilters.healthRange = (JSNum.fin qm, JSNum.fin qM))
    ∧ (∀ n ∈ [onlineNode50], n.healthScore = none ∨
        ∃ q : ℚ, n.healthScore = some (JSNum.fin q) ∧ 0 ≤ q ∧ q ≤ 100)
    ∧ applyMapFilters [onlineNode50] onlineMidFilters
        = applyMapFiltersSpec [onlineNode50] onlineMidFilters := by
  have h1 : onlineMidFilters.statuses.Nodup := by simp [onlineMidFilters]
  have h2 : ∃ qm qM : ℚ, onlineMidFilters.healthRange = (JSNum.fin qm, JSNum.fin qM) :=
    ⟨10, 90, rfl⟩
  have h3 : ∀ n ∈ [onlineNode50], n.healthScore = none ∨
      ∃ q : ℚ, n.healthScore = some (JSNum.fin q) ∧ 0 ≤ q ∧ q ≤ 100 := by
    intro n hn
    simp only [List.mem_singleton] at hn
    subst hn
    right
    exact ⟨50, rfl, by norm_num, by norm_num⟩
  exact ⟨h1, h2, h3, applyMapFilters_eq_spec [onlineNode50] onlineMidFilters h1 h2 h3⟩

/-- C2: `parseCSV` splits the text on newlines before any quote handling,
so a quoted field containing a literal newline is torn apart: the input
`"a,b\n\"x\ny\",2"` (one data row whose first field is `x`-newline-`y`
and second is `2`) parses to two mangled rows instead of the single row
required by RFC-4180 quoting. -/
theorem parseCSV_newline_in_quotes_bug :
    parseCSV "a,b\n\"x\ny\",2" = [[("a", "x"), ("b", "")], [("a", "y,2"), ("b", "")]]
    ∧ parseCSV "a,b\n\"x\ny\",2" ≠ [[("a", "x\ny"), ("b", "2")]] := by
  exact ⟨by decide, by decide⟩

/-- Helper: a non-whitespace character is neither a newline nor a carriage
return. -/
theorem not_ws_ne_newline (c : Char) (h : jsIsWS c = false) : c ≠ '\n' ∧ c ≠ '\r' := by
  constructor
  · intro e
    rw [e] at h
    exact absurd h (by decide)
  · intro e
    rw [e] at h
    exact absurd h (by decide)

/-- Helper: splitting a newline-free text on line breaks yields one line. -/
theorem splitLinesJS_of_clean (xs : List Char) (h : ∀ c ∈ xs, c ≠ '\n' ∧ c ≠ '\r') :
    splitLinesJS xs = [xs] := by
  induction xs with
  | nil => rfl
  | cons c rest ih =>
    have hc := h c (List.mem_cons_self c rest)
    have hrest := fun d hd => h d (List.mem_cons_of_mem c hd)
    conv_lhs => rw [splitLinesJS.eq_def]
    dsimp only
    rw [if_neg hc.2, if_neg hc.1, ih hrest]
    rfl

/-- Helper: splitting peels off a newline-free first line. -/
theorem splitLinesJS_append (xs rest : List Char) (h : ∀ c ∈ xs, c ≠ '\n' ∧ c ≠ '\r') :
    splitLinesJS (xs ++ '\n' :: rest) = xs :: splitLinesJS rest := by
  induction xs with
  | nil =>
    rw [List.nil_append]
    conv_lhs => rw [splitLinesJS.eq_def]
    simp
  | cons c xs2 ih =>
    have hc := h c (List.mem_cons_self c xs2)
    have hxs2 := fun d hd => h d (List.mem_cons_of_mem c hd)
    rw [List.cons_append]
    conv_lhs => rw [splitLinesJS.eq_def]
    dsimp only
    rw [if_neg hc.2, if_neg hc.1, ih hxs2]
    rfl

/-- Helper: trimming changes nothing on whitespace-free text. -/
theorem jsTrim_of_no_ws (l : List Char) (h : ∀ c ∈ l, jsIsWS c = false) :
    jsTrim l = l := by
  have hdrop : ∀ m : List Char, (∀ c ∈ m, jsIsWS c = false) → m.dropWhile jsIsWS = m := by
    intro m hm
    cases m with
    | nil => rfl
    | cons c m2 =>
      rw [List.dropWhile_cons, if_neg]
      rw [hm c (List.mem_cons_self c m2)]
      simp
  rw [jsTrim, hdrop l h, hdrop l.reverse (fun c hc => h c (List.mem_reverse.mp hc)),
    List.reverse_reverse]

/-- Helper: the field scanner passes over comma-free quote-free text,
accumulating it into the current field. -/
theorem csvLineGo_clean (w : List Char) (h : ∀ c ∈ w, c ≠ ',' ∧ c ≠ '"') :
    ∀ (t cur : List Char), csvLineGo (w ++ t) false cur = csvLineGo t false (cur ++ w) := by
  induction w with
  | nil => simp
  | cons c w2 ih =>
    intro t cur
    have hc := h c (List.mem_cons_self c w2)
    have hw2 := fun d hd => h d (List.mem_cons_of_mem c hd)
    rw [List.cons_append, csvLineGo, if_neg hc.2, if_neg hc.1, ih hw2]
    simp

/-- Helper: splitting rows into the ones with and without errors is a
partition of the rows. -/
theorem length_filter_err_partition (L : List (List ImportError)) :
    (L.filter (fun es => decide (es = []))).length
      + (L.filter (fun es => decide (¬ es = []))).length = L.length := by
  simp only [decide_not]
  induction L with
  | nil => rfl
  | cons es L ih =>
    simp only [List.filter_cons]
    by_cases h : es = [] <;> simp [h] <;> omega

/-- Helper: the claim's import CSV parses to one complete row and one row
with an empty `pubkey`, for any comma/quote/whitespace-free pubkey. -/
theorem parseCSV_scenario (pk : String) (hlen : 1 ≤ pk.length)
    (hclean : ∀ c ∈ pk.data, jsIsWS c = false ∧ c ≠ ',' ∧ c ≠ '"') :
    parseCSV ("pubkey,status\n" ++ pk ++ ",online\n,offline")
      = [[("pubkey", pk), ("status", "online")], [("pubkey", ""), ("status", "offline")]] := by
  have hnl : ∀ c ∈ pk.data, c ≠ '\n' ∧ c ≠ '\r' :=
    fun c hc => not_ws_ne_newline c (hclean c hc).1
  have hdata : ("pubkey,status\n" ++ pk ++ ",online\n,offline").data
      = "pubkey,status".data ++ '\n' :: ((pk.data ++ ",online".data) ++ '\n' :: ",offline".data) := by
    rw [String.data_append, String.data_append]
    have h1 : ("pubkey,status\n" : String).data = "pubkey,status".data ++ ['\n'] := by decide
    have h2 : (",online\n,offline" : String).data
        = ",online".data ++ '\n' :: ",offline".data := by decide
    rw [h1, h2]
    simp [List.append_assoc]
  have hB : ∀ c ∈ (",online" : String).data, c ≠ '\n' ∧ c ≠ '\r' := by decide
  have hBws : ∀ c ∈ (",online" : String).data, jsIsWS c = false := by decide
  have hclean2 : ∀ c ∈ pk.data ++ ",online".data, c ≠ '\n' ∧ c ≠ '\r' := by
    intro c hc
    rcases List.mem_append.mp hc with h | h
    · exact hnl c h
    · exact hB c h
  have hnows2 : ∀ c ∈ pk.data ++ ",online".data, jsIsWS c = false := by
    intro c hc
    rcases List.mem_append.mp hc with h | h
    · exact (hclean c h).1
    · exact hBws c h
  have htrim2 : jsTrim (pk.data ++ ",online".data) = pk.data ++ ",online".data :=
    jsTrim_of_no_ws _ hnows2
  have htrimpk : jsTrim pk.data = pk.data :=
    jsTrim_of_no_ws _ (fun c hc => (hclean c hc).1)
  have hline2 : parseCSVLine (pk.data ++ ",online".data) = [pk.data, "online".data] := by
    have hcq : ∀ c ∈ pk.data, c ≠ ',' ∧ c ≠ '"' :=
      fun c hc => ⟨(hclean c hc).2.1, (hclean c hc).2.2⟩
    have h3 : (",online" : String).data = ',' :: "online".data := by decide
    rw [parseCSVLine, h3, csvLineGo_clean pk.data hcq]
    rw [csvLineGo]
    simp [show csvLineGo "online".data false [] = ["online".data] from by decide]
  rw [parseCSV, hdata]
  rw [splitLinesJS_append _ _ (by decide)]
  rw [splitLinesJS_append _ _ hclean2]
  rw [splitLinesJS_of_clean _ (by decide)]
  have hhdr : parseCSVLine "pubkey,status".data = ["pubkey".data, "status".data] := by decide
  have hoff : parseCSVLine ",offline".data = [[], "offline".data] := by decide
  have ht1 : jsTrim "pubkey,status".data = "pubkey,status".data := by decide
  have ht3 : jsTrim ",offline".data = ",offline".data := by decide
  have hmk : String.mk pk.data = pk := rfl
  simp only [List.filter_cons, List.filter_nil, htrim2, ht1, ht3]
  simp [hhdr, hoff, hline2, buildRowTrim, htrimpk, hmk,
    show jsTrim "pubkey".data = "pubkey".data from by decide,
    show jsTrim "status".data = "status".data from by decide,
    show jsTrim "online".data = "online".data from by decide,
    show jsTrim "offline".data = "offline".data from by decide,
    show jsTrim ([] : List Char) = [] from by decide]

/-- Helper: the complete scenario row validates with no errors. -/
theorem validateRow_scenario_ok (toNum : String → JSNum) (pk : String)
    (hlen : 32 ≤ pk.length)
    (hclean : ∀ c ∈ pk.data, jsIsWS c = false ∧ c ≠ ',' ∧ c ≠ '"') :
    validateRow toNum [("pubkey", pk), ("status", "online")] 1 = [] := by
  have hne : ¬ pk = "" := by
    intro h
    rw [h] at hlen
    exact absurd hlen (by decide)
  have htrim : jsTrim pk.data = pk.data :=
    jsTrim_of_no_ws _ (fun c hc => (hclean c hc).1)
  have hlen0 : ¬ pk.data.length = 0 := by
    have he : pk.length = pk.data.length := rfl
    omega
  have hlt : ¬ pk.length < 32 := by omega
  have hplen0 : ¬ pk.length = 0 := by omega
  have ho : jsToLower "online" = "online" := by decide
  simp [validateRow, fieldValidators, fieldAbsent, recGet, hne, validatePubkey, htrim,
    hlen0, hlt, hplen0, validateStatus, ho]

/-- Helper: the pubkey-less scenario row produces exactly the missing
required field error. -/
theorem validateRow_scenario_missing (toNum : String → JSNum) :
    validateRow toNum [("pubkey", ""), ("status", "offline")] 2
      = [{ row := 2, field := "pubkey"
           message := "Missing required field: pubkey", value := some "" }] := by
  have hof : jsToLower "offline" = "offline" := by decide
  simp [validateRow, fieldValidators, fieldAbsent, recGet, validateStatus, hof]

/-- C8: validating rows counts a row as valid exactly when it accumulates
zero errors (valid and invalid rows partition the input, and `isValid`
means no invalid row); and parsing the claim's CSV (a header, a complete
row with a long-enough pubkey, and a row missing its pubkey) yields one
valid and one invalid row whose single error is field `pubkey` at
1-indexed row 2. -/
theorem importValidation_spec :
    (∀ (toNum : String → JSNum) (rows : List (List (String × String))),
        (validateImportData toNum rows).validRows
            = (rows.enum.filter (fun p => decide (validateRow toNum p.2 (p.1 + 1) = []))).length
        ∧ (validateImportData toNum rows).validRows
            + (validateImportData toNum rows).invalidRows = rows.length
        ∧ ((validateImportData toNum rows).isValid = true
            ↔ (validateImportData toNum rows).invalidRows = 0))
    ∧ (∀ (toNum : String → JSNum) (pk : String), 32 ≤ pk.length →
        (∀ c ∈ pk.data, jsIsWS c = false ∧ c ≠ ',' ∧ c ≠ '"') →
        validateImportData toNum (parseCSV ("pubkey,status\n" ++ pk ++ ",online\n,offline"))
          = { isValid := false
              errors := [{ row := 2, field := "pubkey"
                           message := "Missing required field: pubkey", value := some "" }]
              validRows := 1, invalidRows := 1 }) := by
  constructor
  · intro toNum rows
    refine ⟨?_, ?_, ?_⟩
    · simp only [validateImportData, List.filter_map, List.length_map]
      rfl
    · have hp := length_filter_err_partition
        (rows.enum.map (fun p => validateRow toNum p.2 (p.1 + 1)))
      simp only [validateImportData]
      simpa using hp
    · simp [validateImportData]
  · intro toNum pk hlen hclean
    rw [parseCSV_scenario pk (by omega) hclean]
    simp [validateImportData, List.enum, List.enumFrom,
      validateRow_scenario_ok toNum pk hlen hclean, validateRow_scenario_missing toNum]

/-- Witness for C8 at a concrete 40-character pubkey and the concrete
`Number` coercion. -/
theorem importValidation_spec_witness :
    (32 ≤ ("aaaaaaaaaaaaaaaaaaaaaaaaaaaaaaaaaaaaaaaa" : String).length)
    ∧ (∀ c ∈ ("aaaaaaaaaaaaaaaaaaaaaaaaaaaaaaaaaaaaaaaa" : String).data,
        jsIsWS c = false ∧ c ≠ ',' ∧ c ≠ '"')
    ∧ validateImportData jsParseNum
        (parseCSV ("pubkey,status\n" ++ "aaaaaaaaaaaaaaaaaaaaaaaaaaaaaaaaaaaaaaaa"
          ++ ",online\n,offline"))
        = { isValid := false
            errors := [{ row := 2, field := "pubkey"
                         message := "Missing required field: pubkey", value := some "" }]
            validRows := 1, invalidRows := 1 } :=
  ⟨by decide, by decide,
   importValidation_spec.2 jsParseNum "aaaaaaaaaaaaaaaaaaaaaaaaaaaaaaaaaaaaaaaa"
     (by decide) (by decide)⟩

/-- Helper: one unfolding step of the character split. -/
theorem splitOnChar_cons (sep c : Char) (l : List Char) :
    splitOnChar sep (c :: l) =
      if c = sep then [] :: splitOnChar sep l
      else
        match splitOnChar sep l with
        | [] => [[c]]
        | f :: fs => (c :: f) :: fs := rfl

/-- Helper: the character split never returns an empty chunk list. -/
theorem splitOnChar_ne_nil (sep : Char) (l : List Char) : splitOnChar sep l ≠ [] := by
  induction l with
  | nil => simp [splitOnChar]
  | cons c l ih =>
    rw [splitOnChar_cons]
    by_cases h : c = sep
    · simp [h]
    · simp only [h, if_false]
      match hm : splitOnChar sep l with
      | [] => simp
      | f :: fs => simp

/-- Helper: splitting separator-free text yields one chunk. -/
theorem splitOnChar_no_sep (sep : Char) (xs : List Char) (h : ∀ c ∈ xs, c ≠ sep) :
    splitOnChar sep xs = [xs] := by
  induction xs with
  | nil => rfl
  | cons c l ih =>
    rw [splitOnChar_cons, if_neg (h c (List.mem_cons_self c l))]
    rw [ih (fun d hd => h d (List.mem_cons_of_mem c hd))]

/-- Helper: splitting peels off a separator-free first chunk. -/
theorem splitOnChar_append (sep : Char) (xs rest : List Char) (h : ∀ c ∈ xs, c ≠ sep) :
    splitOnChar sep (xs ++ sep :: rest) = xs :: splitOnChar sep rest := by
  induction xs with
  | nil =>
    rw [List.nil_append, splitOnChar_cons, if_pos rfl]
  | cons c l ih =>
    rw [List.cons_append, splitOnChar_cons, if_neg (h c (List.mem_cons_self c l))]
    rw [ih (fun d hd => h d (List.mem_cons_of_mem c hd))]

/-- Helper: two-element-or-more join step. -/
theorem joinSep_cons2 (sep x y : List Char) (rest : List (List Char)) :
    joinSep sep (x :: y :: rest) = x ++ (sep ++ joinSep sep (y :: rest)) := by
  rw [joinSep]
  simp [List.append_assoc]

/-- Helper: splitting a join of separator-free chunks recovers the chunks. -/
theorem splitOnChar_joinSep (sep : Char) (ls : List (List Char)) (hne : ls ≠ [])
    (h : ∀ l ∈ ls, ∀ c ∈ l, c ≠ sep) :
    splitOnChar sep (joinSep [sep] ls) = ls := by
  induction ls with
  | nil => exact absurd rfl hne
  | cons x ls ih =>
    cases ls with
    | nil =>
      rw [joinSep]
      exact splitOnChar_no_sep sep x (h x (List.mem_cons_self x []))
    | cons y rest =>
      rw [joinSep_cons2]
      have hx : ∀ c ∈ x, c ≠ sep := h x (List.mem_cons_self x (y :: rest))
      have hsing : [sep] ++ joinSep [sep] (y :: rest) = sep :: joinSep [sep] (y :: rest) := rfl
      rw [hsing, splitOnChar_append sep x _ hx]
      rw [ih (by simp) (fun l hl => h l (List.mem_cons_of_mem x hl))]

/-- Helper: membership in a join comes from a chunk or the separator. -/
theorem mem_joinSep (sep : List Char) (ls : List (List Char)) (c : Char)
    (hc : c ∈ joinSep sep ls) : (∃ l ∈ ls, c ∈ l) ∨ c ∈ sep := by
  induction ls with
  | nil => simp [joinSep] at hc
  | cons x ls ih =>
    cases ls with
    | nil =>
      rw [joinSep] at hc
      exact Or.inl ⟨x, List.mem_cons_self x [], hc⟩
    | cons y rest =>
      rw [joinSep_cons2] at hc
      rcases List.mem_append.mp hc with h | h
      · exact Or.inl ⟨x, List.mem_cons_self x (y :: rest), h⟩
      · rcases List.mem_append.mp h with h2 | h2
        · exact Or.inr h2
        · rcases ih h2 with ⟨l, hl, hcl⟩ | h3
          · exact Or.inl ⟨l, List.mem_cons_of_mem x hl, hcl⟩
          · exact Or.inr h3

/-- Helper: a chunk's character is in the join of that chunk and more. -/
theorem mem_joinSep_head (sep x : List Char) (ls : List (List Char)) (c : Char)
    (hc : c ∈ x) : c ∈ joinSep sep (x :: ls) := by
  cases ls with
  | nil => exact hc
  | cons y rest =>
    rw [joinSep_cons2]
    exact List.mem_append_left _ hc

/-- Helper: a doubled quote inside quotes emits one quote character. -/
theorem csvLineGo_quote_quote (rest cur : List Char) :
    csvLineGo ('"' :: '"' :: rest) true cur = csvLineGo rest true (cur ++ ['"']) := by
  conv_lhs => rw [csvLineGo.eq_def]
  simp

/-- Helper: a single quote inside quotes, not followed by a quote, closes
the quoted region. -/
theorem csvLineGo_quote_close (c2 : Char) (t2 cur : List Char) (h : ¬ c2 = '"') :
    csvLineGo ('"' :: c2 :: t2) true cur = csvLineGo (c2 :: t2) false cur := by
  conv_lhs => rw [csvLineGo.eq_def]
  simp [h]

/-- Helper: a final quote inside quotes closes the region at end of line. -/
theorem csvLineGo_quote_end (cur : List Char) :
    csvLineGo ['"'] true cur = [cur] := by
  conv_lhs => rw [csvLineGo.eq_def]
  simp [csvLineGo]

/-- Helper: an ordinary character inside quotes is accumulated. -/
theorem csvLineGo_inquotes_char (c : Char) (rest cur : List Char) (h : ¬ c = '"') :
    csvLineGo (c :: rest) true cur = csvLineGo rest true (cur ++ [c]) := by
  conv_lhs => rw [csvLineGo.eq_def]
  simp [h]

/-- Helper: a quote outside quotes opens a quoted region. -/
theorem csvLineGo_open_quote (rest cur : List Char) :
    csvLineGo ('"' :: rest) false cur = csvLineGo rest true cur := by
  conv_lhs => rw [csvLineGo.eq_def]
  simp

/-- Helper: a comma outside quotes ends the current field. -/
theorem csvLineGo_comma (rest cur : List Char) :
    csvLineGo (',' :: rest) false cur = cur :: csvLineGo rest false [] := by
  conv_lhs => rw [csvLineGo.eq_def]
  simp

/-- Helper: inside quotes, the scanner consumes doubled-quote text up to
the closing quote, reconstructing the original characters. -/
theorem csvLineGo_quoted (w : List Char) : ∀ (t cur : List Char), t.head? ≠ some '"' →
    csvLineGo (doubleQuotes w ++ '"' :: t) true cur = csvLineGo t false (cur ++ w) := by
  induction w with
  | nil =>
    intro t cur ht
    rw [doubleQuotes, List.nil_append]
    cases t with
    | nil =>
      rw [csvLineGo_quote_end]
      simp [csvLineGo]
    | cons c2 t2 =>
      have hc2 : ¬ c2 = '"' := by
        intro h
        exact ht (by simp [h])
      rw [csvLineGo_quote_close c2 t2 cur hc2]
      simp
  | cons c w2 ih =>
    intro t cur ht
    by_cases hc : c = '"'
    · subst hc
      rw [doubleQuotes]
      rw [if_pos rfl]
      simp only [List.cons_append]
      rw [csvLineGo_quote_quote, ih t (cur ++ ['"']) ht]
      simp
    · rw [doubleQuotes]
      simp only [hc, if_false, List.cons_append]
      rw [csvLineGo_inquotes_char c _ cur hc, ih t (cur ++ [c]) ht]
      simp

/-- Helper: an unquoted escaped value has no comma and no quote. -/
theorem needsQuote_false_clean (s : String) (h : needsQuote s = false) :
    ∀ c ∈ s.data, c ≠ ',' ∧ c ≠ '"' := by
  intro c hc
  rw [needsQuote] at h
  rw [List.any_eq_false] at h
  have hcc := h c hc
  simp at hcc
  exact ⟨hcc.1, hcc.2.1⟩

/-- Helper: scanning an escaped value from outside quotes accumulates the
original value and continues with the rest. -/
theorem csvLineGo_escaped (v : String) (t cur : List Char) (ht : t.head? ≠ some '"') :
    csvLineGo ((escapeCSVString v).data ++ t) false cur = csvLineGo t false (cur ++ v.data) := by
  by_cases h : needsQuote v
  · rw [escapeCSVString, if_pos h]
    have hdq : (String.mk ('"' :: (doubleQuotes v.data ++ ['"']))).data
        = '"' :: (doubleQuotes v.data ++ ['"']) := rfl
    rw [hdq, List.cons_append, csvLineGo_open_quote]
    have hassoc : (doubleQuotes v.data ++ ['"']) ++ t = doubleQuotes v.data ++ '"' :: t := by
      simp
    rw [hassoc]
    exact csvLineGo_quoted v.data t cur ht
  · rw [escapeCSVString, if_neg h]
    exact csvLineGo_clean v.data (needsQuote_false_clean v (by simpa using h)) t cur

/-- Helper: parsing a joined line of escaped values recovers the values. -/
theorem parseCSVLine_joined (vs : List String) (hvs : vs ≠ []) :
    parseCSVLine (joinSep [','] (vs.map (fun v => (escapeCSVString v).data)))
      = vs.map String.data := by
  induction vs with
  | nil => exact absurd rfl hvs
  | cons v vs ih =>
    cases vs with
    | nil =>
      simp only [List.map_cons, List.map_nil, joinSep]
      rw [parseCSVLine]
      have he : (escapeCSVString v).data ++ ([] : List Char) = (escapeCSVString v).data := by
        simp
      rw [← he, csvLineGo_escaped v [] [] (by simp)]
      simp [csvLineGo]
    | cons v2 rest =>
      simp only [List.map_cons]
      rw [parseCSVLine, joinSep_cons2]
      have hsing : ([','] : List Char) ++ joinSep [','] ((escapeCSVString v2).data
            :: rest.map (fun v => (escapeCSVString v).data))
          = ',' :: joinSep [','] ((escapeCSVString v2).data
            :: rest.map (fun v => (escapeCSVString v).data)) := rfl
      rw [hsing, csvLineGo_escaped v _ [] (by simp)]
      rw [List.nil_append, csvLineGo_comma]
      have ihh := ih (by simp)
      rw [parseCSVLine] at ihh
      simp only [List.map_cons] at ihh
      rw [ihh]

/-- Helper: doubling quotes adds only quote characters. -/
theorem mem_doubleQuotes (w : List Char) (c : Char) (hc : c ∈ doubleQuotes w) :
    c ∈ w ∨ c = '"' := by
  induction w with
  | nil => simp [doubleQuotes] at hc
  | cons d w2 ih =>
    rw [doubleQuotes] at hc
    by_cases hd : d = '"'
    · rw [if_pos hd] at hc
      rcases List.mem_cons.mp hc with rfl | hc2
      · exact Or.inr rfl
      · rcases List.mem_cons.mp hc2 with rfl | hc3
        · exact Or.inr rfl
        · rcases ih hc3 with h | h
          · exact Or.inl (List.mem_cons_of_mem d h)
          · exact Or.inr h
    · rw [if_neg hd] at hc
      rcases List.mem_cons.mp hc with rfl | hc2
      · exact Or.inl (List.mem_cons_self c w2)
      · rcases ih hc2 with h | h
        · exact Or.inl (List.mem_cons_of_mem d h)
        · exact Or.inr h

/-- Helper: escaping adds only quote characters. -/
theorem mem_escapeCSVString (v : String) (c : Char) (hc : c ∈ (escapeCSVString v).data) :
    c ∈ v.data ∨ c = '"' := by
  rw [escapeCSVString] at hc
  by_cases h : needsQuote v
  · rw [if_pos h] at hc
    have hc2 : c ∈ '"' :: (doubleQuotes v.data ++ ['"']) := hc
    rcases List.mem_cons.mp hc2 with rfl | hc3
    · exact Or.inr rfl
    · rcases List.mem_append.mp hc3 with h4 | h4
      · exact mem_doubleQuotes v.data c h4
      · rcases List.mem_singleton.mp h4 with rfl
        exact Or.inr rfl
  · rw [if_neg h] at hc
    exact Or.inl hc

/-- Helper: escaping a value that needs no quoting is the identity. -/
theorem escapeCSVString_of_not_needsQuote (v : String) (h : needsQuote v = false) :
    escapeCSVString v = v := by
  rw [escapeCSVString, if_neg (by simp [h])]

/-- Helper: a trimmed-empty text is all whitespace. -/
theorem all_ws_of_jsTrim_nil (l : List Char) (h : jsTrim l = []) :
    ∀ c ∈ l, jsIsWS c = true := by
  rw [jsTrim] at h
  have h2 : (l.dropWhile jsIsWS).reverse.dropWhile jsIsWS = [] := by
    have := congrArg List.reverse h
    simpa using this
  rw [List.dropWhile_eq_nil_iff] at h2
  have hdrop : ∀ c ∈ l.dropWhile jsIsWS, jsIsWS c = true := by
    intro c hc
    exact h2 c (List.mem_reverse.mpr hc)
  intro c hc
  rw [← List.takeWhile_append_dropWhile (p := jsIsWS) (l := l)] at hc
  rcases List.mem_append.mp hc with h3 | h3
  · exact List.mem_takeWhile_imp h3
  · exact hdrop c h3

/-- Helper: a text containing a non-whitespace character does not trim to
empty. -/
theorem jsTrim_ne_nil_of_mem (l : List Char) (c : Char) (hc : c ∈ l)
    (hw : jsIsWS c = false) : jsTrim l ≠ [] := by
  intro h
  have := all_ws_of_jsTrim_nil l h c hc
  rw [hw] at this
  cases this

/-- Helper: building a record from rendered strings pairs them up. -/
theorem buildRowNoTrim_map (hs : List String) : ∀ vs : List String,
    hs.length = vs.length →
    buildRowNoTrim (hs.map String.data) (vs.map String.data) = hs.zip vs := by
  induction hs with
  | nil =>
    intro vs _
    rfl
  | cons h hs ih =>
    intro vs hlen
    cases vs with
    | nil => simp at hlen
    | cons v vs =>
      simp only [List.map_cons, buildRowNoTrim, List.zip_cons_cons]
      rw [ih vs (by simpa using hlen)]

/-- Helper: a present key is found by the record lookup. -/
theorem recGet_map_isSome (f g : Col → String) (cols : List Col) (c0 : Col)
    (hc0 : c0 ∈ cols) :
    ∃ v, recGet (cols.map (fun c => (f c, g c))) (f c0) = some v := by
  induction cols with
  | nil => cases hc0
  | cons c rest ih =>
    simp only [List.map_cons, recGet]
    rcases List.mem_cons.mp hc0 with rfl | hrest
    · match hm : recGet (rest.map (fun c => (f c, g c))) (f c0) with
      | some v => exact ⟨v, rfl⟩
      | none => exact ⟨g c0, by rw [if_pos rfl]⟩
    · obtain ⟨v, hv⟩ := ih hrest
      rw [hv]
      exact ⟨v, rfl⟩

/-- Helper: the record lookup returns either nothing or the value of some
column with the looked-up label. -/
theorem recGet_map_none_or (f g : Col → String) (cols : List Col) (key : String) :
    recGet (cols.map (fun c => (f c, g c))) key = none
    ∨ ∃ c ∈ cols, f c = key ∧ recGet (cols.map (fun c => (f c, g c))) key = some (g c) := by
  induction cols with
  | nil => exact Or.inl rfl
  | cons c rest ih =>
    simp only [List.map_cons, recGet]
    rcases ih with hnone | ⟨c2, hc2, hf2, hsome⟩
    · rw [hnone]
      by_cases hk : f c = key
      · exact Or.inr ⟨c, List.mem_cons_self c rest, hk, by rw [if_pos hk]⟩
      · exact Or.inl (by rw [if_neg hk])
    · rw [hsome]
      exact Or.inr ⟨c2, List.mem_cons_of_mem c hc2, hf2, rfl⟩

/-- Helper: looking up a selected column's label returns its value, as
long as equal labels carry equal values. -/
theorem recGet_map_eq (f g : Col → String) (cols : List Col) (c0 : Col)
    (hc0 : c0 ∈ cols) (hcong : ∀ c ∈ cols, f c = f c0 → g c = g c0) :
    recGet (cols.map (fun c => (f c, g c))) (f c0) = some (g c0) := by
  rcases recGet_map_none_or f g cols (f c0) with hnone | ⟨c, hc, hf, hsome⟩
  · obtain ⟨v, hv⟩ := recGet_map_isSome f g cols c0 hc0
    rw [hv] at hnone
    cases hnone
  · rw [hsome, hcong c hc hf]

/-- Helper: the export column labels are pairwise distinct. -/
theorem colLabel_injective : ∀ c c2 : Col, colLabel c = colLabel c2 → c = c2 := by
  decide

/-- Helper: a non-lossy column renders exactly its raw string field. -/
theorem cellToString_nonLossy (nts : JSNum → String) (n : Node) (c : Col)
    (h : nonLossy c = true) :
    cellToString nts (formatNodeValue n c) = rawField n c := by
  cases c <;> simp_all [nonLossy, formatNodeValue, cellToString, rawField]

/-- Helper: no column label needs quoting. -/
theorem colLabel_not_needsQuote : ∀ c : Col, needsQuote (colLabel c) = false := by
  decide

/-- Helper: no column label contains a newline. -/
theorem colLabel_no_newline : ∀ c : Col, ∀ ch ∈ (colLabel c).data, ch ≠ '\n' := by
  decide

/-- Helper: every column label holds a non-whitespace character. -/
theorem colLabel_has_nonws : ∀ c : Col, ∃ ch ∈ (colLabel c).data, jsIsWS ch = false := by
  decide

/-- C4 (amended): exporting with header and re-parsing recovers the row
count and, for every non-lossy column, the exact original string value,
for every column selection that is non-empty, every number rendering, and
every node list whose rendered cell values contain no newline and whose
rendered rows are not blank after trimming. -/
theorem exportToCSV_roundTrip (nts : JSNum → String) (cols : List Col) (nodes : List Node)
    (hcols : cols ≠ [])
    (hnl : ∀ n ∈ nodes, ∀ c ∈ cols,
        ∀ ch ∈ (cellToString nts (formatNodeValue n c)).data, ch ≠ '\n')
    (hblank : ∀ n ∈ nodes, jsTrim (rowLine nts cols n) ≠ []) :
    (parseCSVToObjects (exportToCSV nts nodes cols true)).length = nodes.length
    ∧ (∀ (i : Nat) (c : Col), c ∈ cols → nonLossy c = true →
        ((parseCSVToObjects (exportToCSV nts nodes cols true))[i]?).map
            (fun r => recGet r (colLabel c))
          = (nodes[i]?).map (fun n => some (rawField n c))) := by
  have hdata : (exportToCSV nts nodes cols true).data
      = joinSep ['\n'] (headerLine cols :: nodes.map (rowLine nts cols)) := rfl
  have hHnl : ∀ ch ∈ headerLine cols, ch ≠ '\n' := by
    intro ch hch
    rcases mem_joinSep [','] _ ch hch with ⟨l, hl, hchl⟩ | hsep
    · rcases List.mem_map.mp hl with ⟨c, hc, rfl⟩
      rcases mem_escapeCSVString (colLabel c) ch hchl with h | rfl
      · exact colLabel_no_newline c ch h
      · decide
    · rcases List.mem_singleton.mp hsep with rfl
      decide
  have hRnl : ∀ n ∈ nodes, ∀ ch ∈ rowLine nts cols n, ch ≠ '\n' := by
    intro n hn ch hch
    rcases mem_joinSep [','] _ ch hch with ⟨l, hl, hchl⟩ | hsep
    · rcases List.mem_map.mp hl with ⟨c, hc, rfl⟩
      rcases mem_escapeCSVString _ ch hchl with h | rfl
      · exact hnl n hn c hc ch h
      · decide
    · rcases List.mem_singleton.mp hsep with rfl
      decide
  have hallnl : ∀ l ∈ (headerLine cols :: nodes.map (rowLine nts cols)), ∀ ch ∈ l, ch ≠ '\n' := by
    intro l hl
    rcases List.mem_cons.mp hl with rfl | hl2
    · exact hHnl
    · rcases List.mem_map.mp hl2 with ⟨n, hn, rfl⟩
      exact hRnl n hn
  have hsplit : splitOnChar '\n' (exportToCSV nts nodes cols true).data
      = headerLine cols :: nodes.map (rowLine nts cols) := by
    rw [hdata]
    exact splitOnChar_joinSep '\n' _ (by simp) hallnl
  have hHblank : jsTrim (headerLine cols) ≠ [] := by
    cases hcs : cols with
    | nil => exact absurd hcs hcols
    | cons c0 rest =>
      obtain ⟨ch, hch, hw⟩ := colLabel_has_nonws c0
      apply jsTrim_ne_nil_of_mem _ ch _ hw
      have hmem : ch ∈ (escapeCSVString (colLabel c0)).data := by
        rw [escapeCSVString_of_not_needsQuote _ (colLabel_not_needsQuote c0)]
        exact hch
      rw [headerLine, List.map_cons]
      exact mem_joinSep_head [','] _ _ ch hmem
  have hfil : (headerLine cols :: nodes.map (rowLine nts cols)).filter
      (fun l => decide (jsTrim l ≠ [])) = headerLine cols :: nodes.map (rowLine nts cols) := by
    apply List.filter_eq_self.mpr
    intro l hl
    rcases List.mem_cons.mp hl with rfl | hl2
    · simpa using hHblank
    · rcases List.mem_map.mp hl2 with ⟨n, hn, rfl⟩
      simpa using hblank n hn
  have hheaders : parseCSVLine (headerLine cols) = (cols.map colLabel).map String.data := by
    rw [headerLine]
    have hm : cols.map (fun c => (escapeCSVString (colLabel c)).data)
        = (cols.map colLabel).map (fun v => (escapeCSVString v).data) := by
      rw [List.map_map]
      rfl
    rw [hm]
    exact parseCSVLine_joined (cols.map colLabel) (by simpa using hcols)
  have hrowparse : ∀ n : Node, parseCSVLine (rowLine nts cols n)
      = (cols.map (fun c => cellToString nts (formatNodeValue n c))).map String.data := by
    intro n
    rw [rowLine]
    have hm : cols.map (fun c => (escapeCSVString (cellToString nts (formatNodeValue n c))).data)
        = (cols.map (fun c => cellToString nts (formatNodeValue n c))).map
            (fun v => (escapeCSVString v).data) := by
      rw [List.map_map]
      rfl
    rw [hm]
    exact parseCSVLine_joined _ (by simpa using hcols)
  have hbuild : ∀ n : Node,
      buildRowNoTrim (parseCSVLine (headerLine cols)) (parseCSVLine (rowLine nts cols n))
        = cols.map (fun c => (colLabel c, cellToString nts (formatNodeValue n c))) := by
    intro n
    rw [hheaders, hrowparse, buildRowNoTrim_map _ _ (by simp), List.zip_map']
  cases nodes with
  | nil =>
    simp only [List.map_nil] at hsplit hfil
    constructor
    · simp only [parseCSVToObjects, hsplit]
      rw [hfil]
      simp
    · intro i c hc hl
      simp only [parseCSVToObjects, hsplit]
      rw [hfil]
      simp
  | cons n0 ns =>
    have hlen2 : ¬ (headerLine cols :: (n0 :: ns).map (rowLine nts cols)).length < 2 := by
      simp
    have hP : parseCSVToObjects (exportToCSV nts (n0 :: ns) cols true)
        = (n0 :: ns).map
            (fun n => cols.map (fun c => (colLabel c, cellToString nts (formatNodeValue n c)))) := by
      simp only [parseCSVToObjects]
      rw [hsplit, hfil, if_neg hlen2]
      dsimp only
      rw [List.map_map]
      apply List.map_congr_left
      intro n _
      exact hbuild n
    constructor
    · rw [hP]
      simp
    · intro i c hc hl
      rw [hP, List.getElem?_map]
      cases hi : (n0 :: ns)[i]? with
      | none => rfl
      | some n =>
        first
        | simp only [Option.map_some']
        | simp only [Option.map_some]
        have hrg := recGet_map_eq colLabel
          (fun c => cellToString nts (formatNodeValue n c)) cols c hc
          (fun c2 hc2 heq => by rw [colLabel_injective c2 c heq])
        rw [hrg]
        dsimp only
        rw [cellToString_nonLossy nts n c hl]

/-- Counterexample to C4 as stated: a single node with an empty pubkey and
the single `pubkey` column export to a CSV whose only data line is empty;
`parseCSVToObjects` drops it as blank and falls below the two-line
minimum, so the recovered row count is 0, not 1. -/
theorem exportToCSV_roundTrip_counterexample :
    (parseCSVToObjects (exportToCSV jsNumToString [emptyPubkeyNode] [Col.pubkey] true)).length
      ≠ ([emptyPubkeyNode] : List Node).length := by
  decide

/-- Witness for the amended C4 at a pubkey containing a comma. -/
theorem exportToCSV_roundTrip_witness :
    (([Col.pubkey, Col.status] : List Col) ≠ [])
    ∧ (∀ n ∈ [commaPubkeyNode], ∀ c ∈ ([Col.pubkey, Col.status] : List Col),
        ∀ ch ∈ (cellToString jsNumToString (formatNodeValue n c)).data, ch ≠ '\n')
    ∧ (∀ n ∈ [commaPubkeyNode], jsTrim (rowLine jsNumToString [Col.pubkey, Col.status] n) ≠ [])
    ∧ (parseCSVToObjects
          (exportToCSV jsNumToString [commaPubkeyNode] [Col.pubkey, Col.status] true)).length
        = ([commaPubkeyNode] : List Node).length
    ∧ ((parseCSVToObjects
          (exportToCSV jsNumToString [commaPubkeyNode] [Col.pubkey, Col.status] true))[0]?).map
          (fun r => recGet r (colLabel Col.pubkey))
        = (([commaPubkeyNode] : List Node)[0]?).map (fun n => some (rawField n Col.pubkey)) :=
  ⟨by decide, by decide, by decide,
   (exportToCSV_roundTrip jsNumToString [Col.pubkey, Col.status] [commaPubkeyNode]
      (by decide) (by decide) (by decide)).1,
   (exportToCSV_roundTrip jsNumToString [Col.pubkey, Col.status] [commaPubkeyNode]
      (by decide) (by decide) (by decide)).2 0 Col.pubkey (by decide) (by decide)⟩

end PNodeSpec
